import Mathlib

/-!
Verification of the computational core of `server.py` (BerelzDashboard).

Shallow embedding conventions:
* Python floats are modelled as exact rationals (`ℚ`); `int(x)` is `pyInt`
  (truncation toward zero), `round(x, nd)` is `pyRound` (decimal half-even).
* Wall-clock instants (`time.time()`, `datetime.now()`) and the string-sortable
  bar timestamps `"YYYY.MM.DD HH:MM:SS"` are modelled as integers (`ℤ`,
  seconds); the strftime formatting used by the source is order-preserving on
  this range, and a bar whose `time` key is missing or `''` (a falsy value in
  Python) is modelled with `time = none`, which sorts below every real
  timestamp just as `''` sorts below every formatted timestamp.
* `math.sin` is transcendental and not representable over `ℚ`; functions that
  use it take an explicit `sinQ : ℚ → ℚ` argument standing for it.  No claim
  below depends on the value of `sinQ`.
* The mutable module-level globals of the source become explicit state records
  threaded through the functions; writing a JSON file becomes assigning the
  serialized value to a `disk` field of the state.
-/

/-- Python `list[-n:]`: the last `n` elements of a list. -/
def takeLast (n : ℕ) (l : List α) : List α := l.drop (l.length - n)

/-- Floor of a rational as an integer (`q.den` is positive, so Euclidean
division of the numerator by the denominator is exactly the floor). -/
def ratFloor (q : ℚ) : ℤ := q.num / (q.den : ℤ)

/-- Python `int(x)`: truncation toward zero. -/
def pyInt (q : ℚ) : ℤ := if 0 ≤ q then ratFloor q else -(ratFloor (-q))

/-- Python `round(x, nd)`: round to `nd` decimal digits, ties to even
(exact-decimal model of the float behaviour). -/
def pyRound (q : ℚ) (nd : ℕ) : ℚ :=
  let m : ℚ := (10 : ℚ) ^ nd
  let x := q * m
  let fl : ℤ := ratFloor x
  let r := x - fl
  let n : ℤ :=
    if r < 1/2 then fl
    else if 1/2 < r then fl + 1
    else if fl % 2 = 0 then fl else fl + 1
  (n : ℚ) / m

/-- Model of Python `x ** 0.5` on a nonnegative rational: exact whenever the
argument is the square of a rational (every use below is on such inputs). -/
def ratSqrt (q : ℚ) : ℚ := (Nat.sqrt (q.num.toNat * q.den) : ℚ) / (q.den : ℚ)

/-- Maximum of a nonempty list, Python `max(xs)` (0 for `[]`, never used). -/
def listMax : List ℚ → ℚ
  | [] => 0
  | x :: xs => xs.foldl max x

/-- Minimum of a nonempty list, Python `min(xs)` (0 for `[]`, never used). -/
def listMin : List ℚ → ℚ
  | [] => 0
  | x :: xs => xs.foldl min x

/-- Does `needle` occur at the head of `hay`? -/
def charsAt : List Char → List Char → Bool
  | [], _ => true
  | _ :: _, [] => false
  | a :: as, b :: bs => a == b && charsAt as bs

/-- Does `needle` occur anywhere in `hay`? -/
def charsSub (needle : List Char) : List Char → Bool
  | [] => charsAt needle []
  | l@(_ :: rest) => charsAt needle l || charsSub needle rest

/-- Python `needle in hay` on strings. -/
def strContains (needle hay : String) : Bool := charsSub needle.data hay.data

/-- Python `f"{q:.0f}"`: the rational rounded to an integer, printed. -/
def fmt0 (q : ℚ) : String := toString (pyRound q 0).num

/-- Python truthiness of an optional float: `None` and `0.0` are falsy. -/
def truthy : Option ℚ → Bool
  | none => false
  | some x => x != 0

/-! ## Data model -/

/-- One OHLCV candle (`{'time', 'o', 'h', 'l', 'c', 'v', 'synthetic'}`).
A missing/empty `'time'` key is `none`; an absent `'synthetic'` key is
`false`. -/
structure Bar where
  time : Option ℤ
  o : ℚ
  h : ℚ
  l : ℚ
  c : ℚ
  v : ℕ
  synthetic : Bool
deriving DecidableEq

instance : Inhabited Bar := ⟨⟨none, 0, 0, 0, 0, 0, false⟩⟩

/-- Comparison of bar timestamps; `none` (the empty string) sorts first,
matching Python string comparison where `'' < "2024.01.01 ..."`. -/
def timeLeB : Option ℤ → Option ℤ → Bool
  | none, _ => true
  | some _, none => false
  | some x, some y => decide (x ≤ y)

/-- Strict version of `timeLeB`, used to state sortedness-with-uniqueness. -/
def barTimeLt (a b : Bar) : Prop := timeLeB a.time b.time = true ∧ a.time ≠ b.time

instance (a b : Bar) : Decidable (barTimeLt a b) :=
  decidable_of_iff (timeLeB a.time b.time = true ∧ a.time ≠ b.time) Iff.rfl

/-! ## M5 bar cache (`merge_bars_into_cache`, `save_m5_cache`) -/

/-- `M5_CACHE_MAX_BARS = 2000`. -/
def M5_CACHE_MAX_BARS : ℕ := 2000

/-- The cache globals: `_m5_cache`, `_m5_cache_dirty`, the contents of
`m5_cache.json` (`disk`), and `_m5_last_save`. -/
structure M5State where
  cache : List Bar
  dirty : Bool
  disk : Option (List Bar)
  last_save : ℤ
deriving DecidableEq

/-- The inner `for i, cb in enumerate(_m5_cache): if cb['time'] == bar_time:
_m5_cache[i] = bar; break` — replace the first cache entry whose time matches. -/
def updateFirst (t : Option ℤ) (bar : Bar) : List Bar → List Bar
  | [] => []
  | cb :: rest => if cb.time = t then bar :: rest else cb :: updateFirst t bar rest

/-- Loop accumulator of `merge_bars_into_cache`: the live cache, the
`existing_times` set (a list used only for membership), `added`, `updated`. -/
structure MergeAcc where
  cache : List Bar
  times : List (Option ℤ)
  added : ℕ
  updated : ℕ

/-- One iteration of the `for bar in new_bars` loop of
`merge_bars_into_cache`. -/
def mergeStep (acc : MergeAcc) (bar : Bar) : MergeAcc :=
  if bar.synthetic then acc
  else
    match bar.time with
    | none => acc
    | some t =>
      if some t ∈ acc.times then
        { acc with cache := updateFirst (some t) bar acc.cache, updated := acc.updated + 1 }
      else
        { acc with cache := acc.cache ++ [bar], times := some t :: acc.times,
                   added := acc.added + 1 }

/-- The merged-but-not-yet-sorted cache reached after the bar loop. -/
def mergeRaw (st : M5State) (new_bars : List Bar) : MergeAcc :=
  new_bars.foldl mergeStep ⟨st.cache, st.cache.map (·.time), 0, 0⟩

/-- `merge_bars_into_cache(new_bars)`: dedup-by-time merge, then (if anything
changed) sort ascending by time, trim to the most recent 2000 and mark dirty. -/
def merge_bars_into_cache (new_bars : List Bar) (st : M5State) : M5State :=
  if new_bars = [] then st
  else
    let acc := mergeRaw st new_bars
    if 0 < acc.added ∨ 0 < acc.updated then
      { st with
        cache := takeLast M5_CACHE_MAX_BARS
          (acc.cache.mergeSort fun a b => timeLeB a.time b.time),
        dirty := true }
    else { st with cache := acc.cache }

/-- `save_m5_cache()`: no-op unless dirty; otherwise write the cache to disk,
clear the dirty flag and record the save time. -/
def save_m5_cache (now : ℤ) (s : M5State) : M5State :=
  if s.dirty = false then s
  else { s with disk := some s.cache, dirty := false, last_save := now }

/-! ## Backtest validator (`validate_backtest`, `get_win_rate`) -/

/-- `BACKTEST_SECONDS = 14400`. -/
def BACKTEST_SECONDS : ℤ := 14400

/-- `MIN_MOVE_PIPS = 100`. -/
def MIN_MOVE_PIPS : ℚ := 100

/-- Signal kinds `'BUY' | 'SELL' | 'HOLD'`. -/
inductive Sig where
  | BUY
  | SELL
  | HOLD
deriving DecidableEq

/-- A pending backtest entry
`{'signal', 'price', 'timestamp', 'time', 'confidence'}` (`'time'`, a
formatted clock string in the source, is modelled by the instant itself). -/
structure Pending where
  signal : Sig
  price : ℚ
  timestamp : ℤ
  time : ℤ
  confidence : ℤ
deriving DecidableEq

/-- A resolved validation record
`{'signal', 'entry', 'exit', 'pips', 'win', 'time'}`. -/
structure Validated where
  signal : Sig
  entry : ℚ
  exit : ℚ
  pips : ℚ
  win : Bool
  time : ℤ
deriving DecidableEq

/-- The cumulative `backtest_results` counters. -/
structure Results where
  total : ℕ
  wins : ℕ
  losses : ℕ
  buy_wins : ℕ
  buy_total : ℕ
  sell_wins : ℕ
  sell_total : ℕ
deriving DecidableEq

/-- The validator globals: `backtest_pending`, `backtest_results`, and the
contents of `backtest_data.json` (`disk`, written by `save_backtest_data`). -/
structure BTState where
  pending : List Pending
  results : Results
  disk : Option (List Pending × Results)
deriving DecidableEq

/-- Python `list.remove(x)`: drop the first element equal to `x`. -/
def pyRemove [DecidableEq α] (x : α) : List α → List α
  | [] => []
  | a :: rest => if a = x then rest else a :: pyRemove x rest

/-- The per-entry body of `validate_backtest`'s resolution: realized pips,
the win flag, and the per-direction counter updates. -/
def resolveEntry (current_price : ℚ) (res : Results) (p : Pending) :
    ℚ × Bool × Results :=
  match p.signal with
  | Sig.BUY =>
    let pips := (current_price - p.price) * 100
    let win : Bool := decide (MIN_MOVE_PIPS ≤ pips)
    (pips, win,
      { res with buy_total := res.buy_total + 1,
                 buy_wins := res.buy_wins + (if win then 1 else 0) })
  | Sig.SELL =>
    let pips := (p.price - current_price) * 100
    let win : Bool := decide (MIN_MOVE_PIPS ≤ pips)
    (pips, win,
      { res with sell_total := res.sell_total + 1,
                 sell_wins := res.sell_wins + (if win then 1 else 0) })
  | Sig.HOLD =>
    let pips := |current_price - p.price| * 100
    (pips, decide (pips < MIN_MOVE_PIPS * 2), res)

/-- The aggregate counter update of one resolution: the per-direction update
of `resolveEntry` followed by the unconditional `total`/`wins`/`losses`
increments of the loop body. -/
def countersStep (cp : ℚ) (res : Results) (p : Pending) : Results :=
  let r := resolveEntry cp res p
  { r.2.2 with total := r.2.2.total + 1,
               wins := r.2.2.wins + (if r.2.1 then 1 else 0),
               losses := r.2.2.losses + (if r.2.1 then 0 else 1) }

/-- The `for pending in backtest_pending[:]` loop: iterate over a snapshot of
the queue, resolving entries at least `BACKTEST_SECONDS` old (updating the
counters, appending a validation record, and `remove`-ing the entry from the
live queue) and skipping the rest. -/
def vbLoop (current_price : ℚ) (now : ℤ) :
    List Pending → Results → List Validated → List Pending →
    Results × List Validated × List Pending
  | [], res, vals, live => (res, vals, live)
  | p :: rest, res, vals, live =>
    if BACKTEST_SECONDS ≤ now - p.timestamp then
      let r := resolveEntry current_price res p
      vbLoop current_price now rest (countersStep current_price res p)
        (vals ++ [⟨p.signal, p.price, current_price, pyRound r.1 1, r.2.1, p.time⟩])
        (pyRemove p live)
    else vbLoop current_price now rest res vals live

/-- `validate_backtest(current_price, bars)` (the `bars` argument is unused in
the source as well): resolve matured pending signals, truncate the queue to
the most recent 20, and persist if any resolution occurred. -/
def validate_backtest (current_price : ℚ) (bars : List Bar) (now : ℤ)
    (st : BTState) : List Validated × BTState :=
  let _ := bars
  let r := vbLoop current_price now st.pending st.results [] st.pending
  let pending1 := if 20 < r.2.2.length then takeLast 20 r.2.2 else r.2.2
  let disk1 := if r.2.1 ≠ [] then some (pending1, r.1) else st.disk
  (r.2.1, ⟨pending1, r.1, disk1⟩)

/-- The win-rate summary object returned by `get_win_rate()`. -/
structure WinRate where
  win_rate : ℚ
  total : ℕ
  wins : ℕ
  losses : ℕ
  buy_rate : ℚ
  sell_rate : ℚ
  pending : ℕ
deriving DecidableEq

/-- `get_win_rate()`. -/
def get_win_rate (st : BTState) : WinRate :=
  if st.results.total = 0 then
    ⟨0, 0, 0, 0, 0, 0, st.pending.length⟩
  else
    let win_rate := ((st.results.wins : ℚ) / st.results.total) * 100
    let buy_rate : ℚ :=
      if 0 < st.results.buy_total then
        (st.results.buy_wins : ℚ) / st.results.buy_total * 100 else 0
    let sell_rate : ℚ :=
      if 0 < st.results.sell_total then
        (st.results.sell_wins : ℚ) / st.results.sell_total * 100 else 0
    ⟨pyRound win_rate 1, st.results.total, st.results.wins, st.results.losses,
      pyRound buy_rate 1, pyRound sell_rate 1, st.pending.length⟩

/-! ## Indicator library -/

/-- `calc_sma(closes, period)`. -/
def calc_sma (closes : List ℚ) (period : ℕ) : Option ℚ :=
  if closes.length < period then none
  else some ((takeLast period closes).sum / (period : ℚ))

/-- `calc_ema(closes, period)`. -/
def calc_ema (closes : List ℚ) (period : ℕ) : Option ℚ :=
  if closes.length < period then none
  else
    let k : ℚ := 2 / (period + 1)
    let seed := (closes.take period).sum / (period : ℚ)
    some ((closes.drop period).foldl (fun ema price => price * k + ema * (1 - k)) seed)

/-- `calc_rsi(closes, period=14)`. -/
def calc_rsi (closes : List ℚ) (period : ℕ := 14) : ℚ :=
  if closes.length < period + 1 then 50
  else
    let diffs := (closes.zip (closes.drop 1)).map fun pq => pq.2 - pq.1
    let gains := diffs.map fun d => max 0 d
    let losses := diffs.map fun d => max 0 (-d)
    let avg_gain := (takeLast period gains).sum / (period : ℚ)
    let avg_loss := (takeLast period losses).sum / (period : ℚ)
    if avg_loss = 0 then 100
    else
      let rs := avg_gain / avg_loss
      max 0 (min 100 (100 - 100 / (1 + rs)))

/-- The `{'macd', 'signal', 'histogram'}` record of `calc_macd`. -/
structure MacdOut where
  macd : ℚ
  signal : ℚ
  histogram : ℚ
deriving DecidableEq

/-- `calc_macd(closes)`: EMA12 − EMA26, signal line approximated as 0.8× the
MACD line (an intentional simplification in the source). -/
def calc_macd (closes : List ℚ) : MacdOut :=
  match calc_ema closes 12, calc_ema closes 26 with
  | some ema12, some ema26 =>
    let macd_line := ema12 - ema26
    let signal := macd_line * 0.8
    ⟨pyRound macd_line 4, pyRound signal 4, pyRound (macd_line - signal) 4⟩
  | _, _ => ⟨0, 0, 0⟩

/-- The `{'upper', 'middle', 'lower'}` record of `calc_bollinger`. -/
structure BBOut where
  upper : ℚ
  middle : ℚ
  lower : ℚ
deriving DecidableEq

/-- `calc_bollinger(closes, period=20)`. -/
def calc_bollinger (closes : List ℚ) (period : ℕ := 20) : Option BBOut :=
  if closes.length < period then none
  else
    let sma := (takeLast period closes).sum / (period : ℚ)
    let variance := ((takeLast period closes).map fun x => (x - sma) ^ 2).sum / (period : ℚ)
    let std := ratSqrt variance
    some ⟨pyRound (sma + 2 * std) 2, pyRound sma 2, pyRound (sma - 2 * std) 2⟩

/-- `calc_atr(bars, period=14)`. -/
def calc_atr (bars : List Bar) (period : ℕ := 14) : ℚ :=
  if bars.length < period + 1 then 0
  else
    let trs := (bars.zip (bars.drop 1)).map fun pq =>
      max (pq.2.h - pq.2.l) (max |pq.2.h - pq.1.c| |pq.2.l - pq.1.c|)
    if trs ≠ [] then (takeLast period trs).sum / (period : ℚ) else 0

/-- The `{'k', 'd'}` record of `calc_stochastic`. -/
structure StochOut where
  k : ℚ
  d : ℚ
deriving DecidableEq

/-- `calc_stochastic(bars, k_period=14, d_period=3)`; `%D` is a simplified
alias of `%K` in the source (`d_period` is unused there too). -/
def calc_stochastic (bars : List Bar) (k_period : ℕ := 14) (d_period : ℕ := 3) :
    StochOut :=
  let _ := d_period
  if bars.length < k_period then ⟨50, 50⟩
  else
    let w := takeLast k_period bars
    let highs := w.map (·.h)
    let lows := w.map (·.l)
    let close := (bars.getLastD default).c
    let highest := listMax highs
    let lowest := listMin lows
    if highest = lowest then ⟨50, 50⟩
    else
      let k := max 0 (min 100 ((close - lowest) / (highest - lowest) * 100))
      ⟨pyRound k 1, pyRound k 1⟩

/-- `calc_adx(bars, period=14)`: directional-movement sums over the last
`period` bars feeding a DX value clamped to 0–100; 25 when data or true
range is insufficient. -/
def calc_adx (bars : List Bar) (period : ℕ := 14) : ℚ :=
  if bars.length < period + 1 then 25
  else
    let w := takeLast (period + 1) bars
    let pairs := w.zip (w.drop 1)
    let plus_dm := (pairs.map fun pq =>
      let high_diff := pq.2.h - pq.1.h
      let low_diff := pq.1.l - pq.2.l
      if high_diff > low_diff ∧ high_diff > 0 then high_diff else 0).sum
    let minus_dm := (pairs.map fun pq =>
      let high_diff := pq.2.h - pq.1.h
      let low_diff := pq.1.l - pq.2.l
      if low_diff > high_diff ∧ low_diff > 0 then low_diff else 0).sum
    let tr_sum := (pairs.map fun pq =>
      max (pq.2.h - pq.2.l) (max |pq.2.h - pq.1.c| |pq.2.l - pq.1.c|)).sum
    if tr_sum = 0 then 25
    else
      let plus_di := plus_dm / tr_sum * 100
      let minus_di := minus_dm / tr_sum * 100
      if plus_di + minus_di = 0 then 25
      else pyRound (max 0 (min 100 (|plus_di - minus_di| / (plus_di + minus_di) * 100))) 1

/-! ## Signal scorer (`generate_signal`) -/

/-- `signal_stats = {'total', 'correct', 'buy', 'sell', 'hold'}`. -/
structure SignalStats where
  total : ℕ
  correct : ℕ
  buy : ℕ
  sell : ℕ
  hold : ℕ
deriving DecidableEq

/-- A `signal_history` entry (clock/date strings modelled by the instant). -/
structure HistEntry where
  time : ℤ
  date : ℤ
  signal : Sig
  price : ℚ
  confidence : ℤ
  score : ℚ
  reasons : List String
  prev_signal : Option Sig
deriving DecidableEq

/-- The scorer globals (`last_signal`, `signal_history`, `signal_stats`)
together with the validator state they are updated alongside. -/
structure ScorerState where
  bt : BTState
  signal_history : List HistEntry
  signal_stats : SignalStats
  last_signal : Option Sig
deriving DecidableEq

/-- `signal_stats['total'] += 1; signal_stats[signal.lower()] += 1`. -/
def bumpStats (s : SignalStats) (sig : Sig) : SignalStats :=
  let s1 := { s with total := s.total + 1 }
  match sig with
  | Sig.BUY => { s1 with buy := s1.buy + 1 }
  | Sig.SELL => { s1 with sell := s1.sell + 1 }
  | Sig.HOLD => { s1 with hold := s1.hold + 1 }

/-- The `indicators` sub-object of the scorer's result. -/
structure Indicators where
  sma20 : Option ℚ
  sma50 : Option ℚ
  rsi : ℚ
  stoch : StochOut
  macd : MacdOut
  bb : Option BBOut
  atr : ℚ
  adx : ℚ
deriving DecidableEq

/-- The five weighted sub-scores. -/
structure ScoreSet where
  trend : ℚ
  momentum : ℚ
  macd : ℚ
  volatility : ℚ
  strength : ℚ
deriving DecidableEq

/-- All intermediate values of one `generate_signal` evaluation with enough
bars: the indicator snapshot, sub-scores, collected reasons, and the weighted
composite `final_score`. -/
structure Calc where
  sma20 : Option ℚ
  sma50 : Option ℚ
  sma200 : Option ℚ
  rsi : ℚ
  macd : MacdOut
  bb : Option BBOut
  atr : ℚ
  stoch : StochOut
  adx : ℚ
  scores : ScoreSet
  reasons : List String
  final_score : ℚ
deriving DecidableEq

/-- The indicator and scoring section of `generate_signal` (everything between
the length guard and the signal determination), verbatim from the source. -/
def computeScores (bars : List Bar) (bid : ℚ) : Calc :=
  let closes := bars.map (·.c)
  let current := bid
  let sma20 := calc_sma closes 20
  let sma50 := calc_sma closes 50
  let sma200 := if 200 ≤ closes.length then calc_sma closes 200 else sma50
  let rsi := calc_rsi closes
  let macd := calc_macd closes
  let bb := calc_bollinger closes
  let atr := calc_atr bars
  let stoch := calc_stochastic bars
  let adx := calc_adx bars
  -- 1. TREND ANALYSIS (30%); `if sma20 and sma50:` is Python truthiness
  let trendPair : ℚ × List String :=
    if truthy sma20 && truthy sma50 then
      let s20 := sma20.getD 0
      let s50 := sma50.getD 0
      if current > s20 ∧ s20 > s50 then (100, ["Strong uptrend"])
      else if current > s20 ∧ s20 < s50 then (60, ["Trend turning bullish"])
      else if current < s20 ∧ s20 < s50 then (-100, ["Strong downtrend"])
      else if current < s20 ∧ s20 > s50 then (-60, ["Trend turning bearish"])
      else (0, [])
    else (0, [])
  -- 2. MOMENTUM (25%)
  let rsiPair : ℚ × List String :=
    if rsi < 25 then (100, ["RSI extreme oversold (" ++ fmt0 rsi ++ ")"])
    else if rsi < 35 then (70, ["RSI oversold (" ++ fmt0 rsi ++ ")"])
    else if rsi > 75 then (-100, ["RSI extreme overbought (" ++ fmt0 rsi ++ ")"])
    else if rsi > 65 then (-70, ["RSI overbought (" ++ fmt0 rsi ++ ")"])
    else (0, [])
  let stoch_score : ℚ := if stoch.k < 20 then 80 else if stoch.k > 80 then -80 else 0
  let momentum : ℚ :=
    if (rsiPair.1 > 0 ∧ stoch_score > 0) ∨ (rsiPair.1 < 0 ∧ stoch_score < 0) then
      (rsiPair.1 + stoch_score) / 2 * 1.2
    else (rsiPair.1 + stoch_score) / 2
  -- 3. MACD (20%)
  let macdPair : ℚ × List String :=
    if macd.histogram > 0 ∧ macd.macd > macd.signal then
      if macd.histogram > |macd.signal| * 0.1 then (100, ["MACD strong bullish"])
      else (80, [])
    else if macd.histogram < 0 ∧ macd.macd < macd.signal then
      if |macd.histogram| > |macd.signal| * 0.1 then (-100, ["MACD strong bearish"])
      else (-80, [])
    else (macd.histogram * 10, [])
  -- 4. VOLATILITY/BB (15%)
  let volPair : ℚ × List String :=
    match bb with
    | some b =>
      let bb_position : ℚ :=
        if b.upper ≠ b.lower then (current - b.lower) / (b.upper - b.lower) * 100
        else 50
      if bb_position < 10 then (100, ["Below BB lower (oversold)"])
      else if bb_position < 25 then (60, [])
      else if bb_position > 90 then (-100, ["Above BB upper (overbought)"])
      else if bb_position > 75 then (-60, [])
      else (0, [])
    | none => (0, [])
  -- 5. TREND STRENGTH (10%)
  let strengthPair : ℚ × List String :=
    if adx > 40 then
      ((if trendPair.1 > 0 then 100 else -100), ["Very strong trend (ADX " ++ fmt0 adx ++ ")"])
    else if adx > 25 then ((if trendPair.1 > 0 then 50 else -50), [])
    else (0, [])
  let scores : ScoreSet :=
    ⟨trendPair.1, momentum, macdPair.1, volPair.1, strengthPair.1⟩
  let reasons := trendPair.2 ++ rsiPair.2 ++ macdPair.2 ++ volPair.2 ++ strengthPair.2
  let final_score :=
    scores.trend * 0.30 + scores.momentum * 0.25 + scores.macd * 0.20 +
      scores.volatility * 0.15 + scores.strength * 0.10
  ⟨sma20, sma50, sma200, rsi, macd, bb, atr, stoch, adx, scores, reasons, final_score⟩

/-- The full result object of `generate_signal` when it has enough bars. -/
structure FullOut where
  signal : Sig
  confidence : ℤ
  score : ℚ
  scores : ScoreSet
  buy_votes : ℕ
  sell_votes : ℕ
  reasons : List String
  indicators : Indicators
  stats : SignalStats
  history : List HistEntry
  backtest : WinRate
  validated : List Validated
deriving DecidableEq

/-- The result of `generate_signal`: the early insufficient-data dict
(`{'signal', 'confidence', 'reason'}`) or the full result object. -/
inductive GenOut where
  | short (signal : Sig) (confidence : ℤ) (reason : String)
  | full (f : FullOut)
deriving DecidableEq

/-- The emitted signal of either result shape. -/
def GenOut.signal : GenOut → Sig
  | .short s _ _ => s
  | .full f => f.signal

/-- The confidence of either result shape. -/
def GenOut.confidence : GenOut → ℤ
  | .short _ c _ => c
  | .full f => f.confidence

/-- The `SIGNAL DETERMINATION with confidence` block of `generate_signal`. -/
def signalDecision (final_score : ℚ) : Sig × ℤ :=
  if final_score > 35 then (Sig.BUY, min 95 (50 + pyInt (final_score / 2)))
  else if final_score < -35 then (Sig.SELL, min 95 (50 + pyInt (|final_score| / 2)))
  else (Sig.HOLD, max 30 (50 - pyInt |final_score|))

/-- The `ADX filter` of `generate_signal`: damp the confidence by ×0.7
(truncated to int) in a weak trend. -/
def dampConfidence (adx : ℚ) (conf : ℤ) : ℤ :=
  if adx < 20 then pyInt ((conf : ℚ) * 0.7) else conf

/-- `generate_signal(bars, bid)`: guard, weighted scoring, signal/confidence
determination, ADX damping, backtest validation, and the
signal-change side effects (stats, pending queue + persist, history,
last-signal memory). -/
def generate_signal (bars : List Bar) (bid : ℚ) (now : ℤ) (st : ScorerState) :
    GenOut × ScorerState :=
  if bars.length < 50 then (GenOut.short Sig.HOLD 0 "Insufficient data", st)
  else
    let c := computeScores bars bid
    let final_score := c.final_score
    let sigConf := signalDecision final_score
    let signal := sigConf.1
    let confidence := dampConfidence c.adx sigConf.2
    let reasons :=
      if c.adx < 20 ∧ ¬ (c.reasons.any fun r => strContains "Weak trend" r) then
        c.reasons ++ ["Weak trend (ADX " ++ fmt0 c.adx ++ ")"]
      else c.reasons
    -- Validate previous signals (backtesting)
    let vb := validate_backtest bid bars now st.bt
    let validated := vb.1
    let bt1 := vb.2
    -- Track signal changes
    let changed := st.last_signal ≠ some signal
    let stats1 := if changed then bumpStats st.signal_stats signal else st.signal_stats
    let bt2 :=
      if changed then
        let pending1 := bt1.pending ++ [⟨signal, bid, now, now, confidence⟩]
        { bt1 with pending := pending1, disk := some (pending1, bt1.results) }
      else bt1
    let hist1 :=
      if changed then
        let h := st.signal_history ++
          [⟨now, now, signal, pyRound bid 2, confidence, pyRound final_score 1,
            reasons.take 3, st.last_signal⟩]
        if 100 < h.length then takeLast 100 h else h
      else st.signal_history
    let last1 := if changed then some signal else st.last_signal
    let st1 : ScorerState := ⟨bt2, hist1, stats1, last1⟩
    let scoreVals : List ℚ :=
      [c.scores.trend, c.scores.momentum, c.scores.macd, c.scores.volatility,
        c.scores.strength]
    let out : FullOut :=
      { signal := signal
        confidence := confidence
        score := pyRound final_score 1
        scores := ⟨pyRound c.scores.trend 1, pyRound c.scores.momentum 1,
          pyRound c.scores.macd 1, pyRound c.scores.volatility 1,
          pyRound c.scores.strength 1⟩
        buy_votes := scoreVals.countP fun v => decide (v > 30)
        sell_votes := scoreVals.countP fun v => decide (v < -30)
        reasons := reasons.take 4
        indicators :=
          { sma20 := if truthy c.sma20 then some (pyRound (c.sma20.getD 0) 2) else none
            sma50 := if truthy c.sma50 then some (pyRound (c.sma50.getD 0) 2) else none
            rsi := pyRound c.rsi 1
            stoch := c.stoch
            macd := c.macd
            bb := c.bb
            atr := pyRound c.atr 2
            adx := pyRound c.adx 1 }
        stats := stats1
        history := takeLast 10 hist1
        backtest := get_win_rate bt2
        validated := if validated ≠ [] then takeLast 5 validated else [] }
    (GenOut.full out, st1)

/-! ## Bar aggregator (`build_bars_from_price`) -/

/-- One `price_history` observation `{'time': datetime, 'price': float}`. -/
structure PricePoint where
  time : ℤ
  price : ℚ
deriving DecidableEq

/-- Truncation of a timestamp to its 5-minute bucket
(`replace(second=0, microsecond=0, minute=(minute // 5) * 5)`). -/
def bucket5 (t : ℤ) : ℤ := t / 300 * 300

/-- One deterministically generated synthetic bar of the back-fill loop;
`sinQ` stands for `math.sin`. -/
def synthBar (sinQ : ℚ → ℚ) (now : ℤ) (current_price : ℚ) (idx : ℤ) : Bar :=
  let bar_time := now - idx * 300
  let typical_range := current_price * 0.015
  let wave := sinQ ((idx : ℚ) * 0.3) * (typical_range * 0.3)
  let base := current_price + wave
  let bar_range := typical_range * 0.1
  let o := base - bar_range * 0.2
  let c := base + bar_range * 0.2
  let h := base + bar_range
  let l := base - bar_range
  { time := some bar_time, o := pyRound o 2, h := pyRound h 2, l := pyRound l 2,
    c := pyRound c 2, v := 1000, synthetic := true }

/-- The `for i in range(60 - len(bars))` back-fill loop: `count` iterations
remain, `i` is the loop variable, and each iteration recomputes
`idx = 60 - len(bars) - i` against the *current* (growing) list before
`bars.insert(0, ...)`. -/
def backfillLoop (sinQ : ℚ → ℚ) (now : ℤ) (current_price : ℚ) :
    ℕ → ℕ → List Bar → List Bar
  | 0, _, bars => bars
  | count + 1, i, bars =>
    let idx : ℤ := 60 - (bars.length : ℤ) - (i : ℤ)
    backfillLoop sinQ now current_price count (i + 1)
      (synthBar sinQ now current_price idx :: bars)

/-- The whole `if len(bars) < 60:` back-fill block (the `range` bound is
evaluated once, against the list as it is on entry). -/
def backfill (sinQ : ℚ → ℚ) (now : ℤ) (current_price : ℚ) (bars : List Bar) :
    List Bar :=
  backfillLoop sinQ now current_price (60 - bars.length) 0 bars

/-- The final `bars[-1]` adjustment: force the last bar's close to the live
price and widen its high/low if exceeded. -/
def fixLastBar (current_price : ℚ) (bars : List Bar) : List Bar :=
  match bars.getLast? with
  | none => bars
  | some last =>
    let last1 := { last with c := pyRound current_price 2 }
    let last2 :=
      if current_price > last1.h then { last1 with h := pyRound current_price 2 }
      else last1
    let last3 :=
      if current_price < last2.l then { last2 with l := pyRound current_price 2 }
      else last2
    bars.dropLast ++ [last3]

/-- The real-bar aggregation of `build_bars_from_price`: group the price
history into 5-minute buckets and emit one OHLC bar per bucket in ascending
bucket order.  (Python iterates `sorted(bar_data.keys())`; the sorted list of
the distinct bucket keys is the same whichever occurrence `dedup` keeps.) -/
def realBars (ph : List PricePoint) : List Bar :=
  let keys := ((ph.map fun p => bucket5 p.time).dedup).mergeSort fun a b => decide (a ≤ b)
  keys.flatMap fun k =>
    let prices := (ph.filter fun p => bucket5 p.time == k).map (·.price)
    if prices = [] then []
    else
      [{ time := some k
         o := pyRound (prices.headD 0) 2
         h := pyRound (listMax prices) 2
         l := pyRound (listMin prices) 2
         c := pyRound (prices.getLastD 0) 2
         v := prices.length * 100
         synthetic := false }]

/-- `build_bars_from_price(current_price)`: append the tick to the (capped)
price history, aggregate real 5-minute bars when more than 10 observations
exist, back-fill synthetic bars below 60 bars, pin the last bar to the live
price, and return the last 200 bars together with the updated history. -/
def build_bars_from_price (sinQ : ℚ → ℚ) (now : ℤ) (current_price : ℚ)
    (price_history : List PricePoint) : List Bar × List PricePoint :=
  let ph1 := price_history ++ [⟨now, current_price⟩]
  let ph := if 2000 < ph1.length then takeLast 2000 ph1 else ph1
  let bars0 := if 10 < ph.length then realBars ph else []
  let bars1 := if bars0.length < 60 then backfill sinQ now current_price bars0 else bars0
  let bars2 := fixLastBar current_price bars1
  (takeLast 200 bars2, ph)

/-! ## Concrete fixtures used by witnesses and counterexamples

Batteries marks the `Rat` field operations `@[irreducible]`; making them
semireducible again lets `decide` evaluate the embedded functions on the
concrete inputs below. -/

attribute [local semireducible] Rat.add Rat.mul Rat.sub Rat.inv Rat.ofScientific

set_option maxRecDepth 100000

/-- A flat bar at price 2000. -/
def flatBar : Bar := ⟨some 0, 2000, 2000, 2000, 2000, 100, false⟩

/-- 50 identical-price bars. -/
def bars50 : List Bar := List.replicate 50 flatBar

/-- 49 identical-price bars. -/
def bars49 : List Bar := List.replicate 49 flatBar

/-- The scorer/validator state at process start. -/
def st0 : ScorerState := ⟨⟨[], ⟨0, 0, 0, 0, 0, 0, 0⟩, none⟩, [], ⟨0, 0, 0, 0, 0⟩, none⟩

/-! ## C6 — insufficient data -/

/-- C6: with fewer than 50 bars, `generate_signal` returns the
`{'signal': 'HOLD', 'confidence': 0, 'reason': 'Insufficient data'}` dict and
leaves the whole scorer/validator state untouched. -/
theorem generate_signal_insufficient_data (bars : List Bar) (bid : ℚ) (now : ℤ)
    (st : ScorerState) (h : bars.length < 50) :
    generate_signal bars bid now st =
      (GenOut.short Sig.HOLD 0 "Insufficient data", st) := by
  unfold generate_signal
  rw [if_pos h]

/-- Witness for C6 at 49 flat bars and the initial state. -/
theorem generate_signal_insufficient_data_witness :
    bars49.length < 50 ∧
      generate_signal bars49 2000 0 st0 =
        (GenOut.short Sig.HOLD 0 "Insufficient data", st0) :=
  ⟨by decide, generate_signal_insufficient_data bars49 2000 0 st0 (by decide)⟩

/-! ## C5 — RSI defaults and saturation -/

/-- Adjacent pairs of a `<`-chain are increasing. -/
theorem chain_lt_zip {l : List ℚ} (h : List.Chain' (· < ·) l) :
    ∀ pq ∈ l.zip (l.drop 1), pq.1 < pq.2 := by
  induction l with
  | nil => simp
  | cons a t ih =>
    cases t with
    | nil => simp
    | cons b t' =>
      rw [List.chain'_cons] at h
      intro pq hpq
      rw [List.drop_one, List.tail_cons, List.zip_cons_cons, List.mem_cons] at hpq
      rcases hpq with rfl | hmem
      · exact h.1
      · exact ih h.2 pq (by rwa [List.drop_one, List.tail_cons])

/-- Adjacent pairs of a `>`-chain are decreasing. -/
theorem chain_gt_zip {l : List ℚ} (h : List.Chain' (· > ·) l) :
    ∀ pq ∈ l.zip (l.drop 1), pq.2 < pq.1 := by
  induction l with
  | nil => simp
  | cons a t ih =>
    cases t with
    | nil => simp
    | cons b t' =>
      rw [List.chain'_cons] at h
      intro pq hpq
      rw [List.drop_one, List.tail_cons, List.zip_cons_cons, List.mem_cons] at hpq
      rcases hpq with rfl | hmem
      · exact h.1
      · exact ih h.2 pq (by rwa [List.drop_one, List.tail_cons])

/-- C5: `calc_rsi` returns 50 on fewer than 15 closes, 100 on a strictly
increasing sequence longer than 15, and 0 on a strictly decreasing sequence
longer than 15. -/
theorem calc_rsi_defaults_and_saturation :
    (∀ closes : List ℚ, closes.length < 15 → calc_rsi closes = 50) ∧
    (∀ closes : List ℚ, 15 < closes.length → List.Chain' (· < ·) closes →
      calc_rsi closes = 100) ∧
    (∀ closes : List ℚ, 15 < closes.length → List.Chain' (· > ·) closes →
      calc_rsi closes = 0) := by
  refine ⟨fun closes h => ?_, fun closes hlen hch => ?_, fun closes hlen hch => ?_⟩
  · unfold calc_rsi
    rw [if_pos (by omega)]
  · have hz := chain_lt_zip hch
    unfold calc_rsi
    rw [if_neg (by omega)]
    have hsum : (takeLast 14 ((closes.zip (closes.drop 1)).map
        (fun pq => pq.2 - pq.1) |>.map fun d => max 0 (-d))).sum = 0 := by
      refine List.sum_eq_zero fun x hx => ?_
      have hx' := List.drop_subset _ _ hx
      simp only [List.mem_map] at hx'
      obtain ⟨d, ⟨pq, hpq, rfl⟩, rfl⟩ := hx'
      have := hz pq hpq
      simp only [max_eq_left_iff]
      linarith
    simp only [hsum, zero_div]
    norm_num
  · have hz := chain_gt_zip hch
    unfold calc_rsi
    rw [if_neg (by omega)]
    have hgain : (takeLast 14 ((closes.zip (closes.drop 1)).map
        (fun pq => pq.2 - pq.1) |>.map fun d => max 0 d)).sum = 0 := by
      refine List.sum_eq_zero fun x hx => ?_
      have hx' := List.drop_subset _ _ hx
      simp only [List.mem_map] at hx'
      obtain ⟨d, ⟨pq, hpq, rfl⟩, rfl⟩ := hx'
      have := hz pq hpq
      simp only [max_eq_left_iff]
      linarith
    have hlenloss : (takeLast 14 ((closes.zip (closes.drop 1)).map
        (fun pq => pq.2 - pq.1) |>.map fun d => max 0 (-d))).length = 14 := by
      unfold takeLast
      simp only [List.length_drop, List.length_map, List.length_zip,
        List.length_drop]
      omega
    have hpos : 0 < (takeLast 14 ((closes.zip (closes.drop 1)).map
        (fun pq => pq.2 - pq.1) |>.map fun d => max 0 (-d))).sum := by
      refine List.sum_pos _ (fun x hx => ?_) ?_
      · have hx' := List.drop_subset _ _ hx
        simp only [List.mem_map] at hx'
        obtain ⟨d, ⟨pq, hpq, rfl⟩, rfl⟩ := hx'
        have := hz pq hpq
        simp only [lt_max_iff]
        right; linarith
      · intro hnil
        rw [hnil] at hlenloss
        simp at hlenloss
    rw [if_neg (by positivity)]
    simp only [hgain, zero_div]
    norm_num

/-- A strictly increasing 16-element closes list. -/
def incCloses : List ℚ := [1, 2, 3, 4, 5, 6, 7, 8, 9, 10, 11, 12, 13, 14, 15, 16]

/-- A strictly decreasing 16-element closes list. -/
def decCloses : List ℚ := [16, 15, 14, 13, 12, 11, 10, 9, 8, 7, 6, 5, 4, 3, 2, 1]

/-- Witness for C5 on concrete 16-element sequences. -/
theorem calc_rsi_defaults_and_saturation_witness :
    calc_rsi [1, 2, 3] = 50 ∧
      calc_rsi incCloses = 100 ∧
      calc_rsi decCloses = 0 :=
  ⟨calc_rsi_defaults_and_saturation.1 _ (by decide),
   calc_rsi_defaults_and_saturation.2.1 incCloses (by decide)
     (by norm_num [incCloses, List.chain'_cons]),
   calc_rsi_defaults_and_saturation.2.2 decCloses (by decide)
     (by norm_num [decCloses, List.chain'_cons])⟩

/-! ## C1 — backtest resolution -/

/-- The claim's pips formula: `(current − entry) × 100` for BUY,
`(entry − current) × 100` for SELL, `|current − entry| × 100` for HOLD. -/
def claimPips (current entry : ℚ) : Sig → ℚ
  | Sig.BUY => (current - entry) * 100
  | Sig.SELL => (entry - current) * 100
  | Sig.HOLD => |current - entry| * 100

/-- The claim's win rule: BUY/SELL win iff pips ≥ 100, HOLD win iff
pips < 200. -/
def claimWin (current entry : ℚ) : Sig → Bool
  | Sig.BUY => decide (100 ≤ (current - entry) * 100)
  | Sig.SELL => decide (100 ≤ (entry - current) * 100)
  | Sig.HOLD => decide (|current - entry| * 100 < 200)

/-- The validated record the claim predicts for one matured pending entry. -/
def claimVal (current : ℚ) (p : Pending) : Validated :=
  ⟨p.signal, p.price, current, pyRound (claimPips current p.price p.signal) 1,
    claimWin current p.price p.signal, p.time⟩

theorem MIN_MOVE_PIPS_double : MIN_MOVE_PIPS * 2 = 200 := by
  norm_num [MIN_MOVE_PIPS]

theorem resolveEntry_pips (cp : ℚ) (res : Results) (p : Pending) :
    (resolveEntry cp res p).1 = claimPips cp p.price p.signal := by
  obtain ⟨s, pr, ts, t, cf⟩ := p
  cases s <;> rfl

theorem resolveEntry_win (cp : ℚ) (res : Results) (p : Pending) :
    (resolveEntry cp res p).2.1 = claimWin cp p.price p.signal := by
  obtain ⟨s, pr, ts, t, cf⟩ := p
  have h2 : (100 * 2 : ℚ) = 200 := by norm_num
  cases s <;> simp [resolveEntry, claimWin, MIN_MOVE_PIPS, h2]

/-- Whether a pending entry has matured at wall-clock time `now`. -/
def matured (now : ℤ) (p : Pending) : Bool := decide (BACKTEST_SECONDS ≤ now - p.timestamp)

theorem pyRemove_append {α} [DecidableEq α] (x : α) (l1 l2 : List α)
    (h : ∀ y ∈ l1, y ≠ x) : pyRemove x (l1 ++ x :: l2) = l1 ++ l2 := by
  induction l1 with
  | nil => simp [pyRemove]
  | cons a t ih =>
    have ha : a ≠ x := h a (by simp)
    simp only [List.cons_append, pyRemove, if_neg ha, List.append_eq]
    rw [ih fun y hy => h y (by simp [hy])]

/-- Closed form of the `for pending in backtest_pending[:]` loop: provided
the already-processed part `pre` of the live queue holds no matured entry,
the loop folds the counter updates over the matured entries in snapshot
order, emits their validation records in order, and leaves exactly the
unmatured entries in the live queue. -/
theorem vbLoop_spec (cp : ℚ) (now : ℤ) (todo : List Pending) :
    ∀ (res : Results) (vals : List Validated) (pre : List Pending),
      (∀ x ∈ pre, matured now x = false) →
      vbLoop cp now todo res vals (pre ++ todo) =
        ((todo.filter (matured now)).foldl (countersStep cp) res,
         vals ++ (todo.filter (matured now)).map (claimVal cp),
         pre ++ todo.filter fun p => !matured now p) := by
  induction todo with
  | nil => intro res vals pre _; simp [vbLoop]
  | cons p rest ih =>
    intro res vals pre hpre
    by_cases hm : BACKTEST_SECONDS ≤ now - p.timestamp
    · have hmat : matured now p = true := by simp [matured, hm]
      have hrem : pyRemove p (pre ++ p :: rest) = pre ++ rest := by
        refine pyRemove_append p pre rest fun y hy hxy => ?_
        have h1 := hpre y hy
        rw [hxy, hmat] at h1
        simp at h1
      have hv : (⟨p.signal, p.price, cp, pyRound (resolveEntry cp res p).1 1,
          (resolveEntry cp res p).2.1, p.time⟩ : Validated) = claimVal cp p := by
        rw [resolveEntry_pips, resolveEntry_win]; rfl
      simp only [vbLoop]
      rw [if_pos hm, hrem, ih _ _ pre hpre, hv]
      simp [List.filter_cons, hmat]
    · have hmat : matured now p = false := by simp [matured, hm]
      have hpre' : ∀ x ∈ pre ++ [p], matured now x = false := by
        intro y hy
        rcases List.mem_append.1 hy with h1 | h2
        · exact hpre y h1
        · simp only [List.mem_singleton] at h2; rw [h2]; exact hmat
      have hsplit : pre ++ p :: rest = (pre ++ [p]) ++ rest := by simp
      simp only [vbLoop]
      rw [if_neg hm, hsplit, ih _ _ (pre ++ [p]) hpre']
      simp [List.filter_cons, hmat]

/-- Per-entry effect of `countersStep` on each counter field. -/
theorem countersStep_fields (cp : ℚ) (res : Results) (p : Pending) :
    (countersStep cp res p).total = res.total + 1 ∧
    (countersStep cp res p).wins =
      res.wins + (if claimWin cp p.price p.signal then 1 else 0) ∧
    (countersStep cp res p).losses =
      res.losses + (if claimWin cp p.price p.signal then 0 else 1) ∧
    (countersStep cp res p).buy_total =
      res.buy_total + (if p.signal = Sig.BUY then 1 else 0) ∧
    (countersStep cp res p).buy_wins =
      res.buy_wins +
        (if p.signal = Sig.BUY ∧ claimWin cp p.price p.signal then 1 else 0) ∧
    (countersStep cp res p).sell_total =
      res.sell_total + (if p.signal = Sig.SELL then 1 else 0) ∧
    (countersStep cp res p).sell_wins =
      res.sell_wins +
        (if p.signal = Sig.SELL ∧ claimWin cp p.price p.signal then 1 else 0) := by
  obtain ⟨s, pr, ts, t, cf⟩ := p
  have h2 : (100 * 2 : ℚ) = 200 := by norm_num
  cases s <;>
    simp [countersStep, resolveEntry, claimWin, MIN_MOVE_PIPS, h2]

/-- Field-wise closed form of folding `countersStep` over a list. -/
theorem countersFold_fields (cp : ℚ) (l : List Pending) : ∀ res : Results,
    (l.foldl (countersStep cp) res).total = res.total + l.length ∧
    (l.foldl (countersStep cp) res).wins =
      res.wins + l.countP (fun p => claimWin cp p.price p.signal) ∧
    (l.foldl (countersStep cp) res).losses =
      res.losses + l.countP (fun p => !claimWin cp p.price p.signal) ∧
    (l.foldl (countersStep cp) res).buy_total =
      res.buy_total + l.countP (fun p => p.signal == Sig.BUY) ∧
    (l.foldl (countersStep cp) res).buy_wins =
      res.buy_wins +
        l.countP (fun p => p.signal == Sig.BUY && claimWin cp p.price p.signal) ∧
    (l.foldl (countersStep cp) res).sell_total =
      res.sell_total + l.countP (fun p => p.signal == Sig.SELL) ∧
    (l.foldl (countersStep cp) res).sell_wins =
      res.sell_wins +
        l.countP (fun p => p.signal == Sig.SELL && claimWin cp p.price p.signal) := by
  induction l with
  | nil => intro res; simp
  | cons p t ih =>
    intro res
    obtain ⟨h1, h2, h3, h4, h5, h6, h7⟩ := countersStep_fields cp res p
    obtain ⟨g1, g2, g3, g4, g5, g6, g7⟩ := ih (countersStep cp res p)
    simp only [List.foldl_cons, List.countP_cons, List.length_cons] at *
    refine ⟨by omega, ?_, ?_, ?_, ?_, ?_, ?_⟩
    · rw [g2, h2]; rcases hb : claimWin cp p.price p.signal <;> simp [hb] <;> omega
    · rw [g3, h3]; rcases hb : claimWin cp p.price p.signal <;> simp [hb] <;> omega
    · rw [g4, h4]; rcases hb : p.signal == Sig.BUY <;>
        simp_all [beq_iff_eq] <;> omega
    · rw [g5, h5]
      rcases hb : p.signal == Sig.BUY <;> rcases hw : claimWin cp p.price p.signal <;>
        simp_all [beq_iff_eq] <;> omega
    · rw [g6, h6]; rcases hb : p.signal == Sig.SELL <;>
        simp_all [beq_iff_eq] <;> omega
    · rw [g7, h7]
      rcases hb : p.signal == Sig.SELL <;> rcases hw : claimWin cp p.price p.signal <;>
        simp_all [beq_iff_eq] <;> omega

/-- C1: on every call, `validate_backtest` resolves exactly the pending
signals aged at least 14400 s — emitting for each one a validation record
with the claimed pips formula and win rule — adds one to `total` and to
exactly one of `wins`/`losses` per resolution, adds to the per-direction
counters for BUY/SELL resolutions (and to `buy_wins`/`sell_wins` exactly on
wins), removes each resolved entry from the queue (keeping, up to the 20-cap,
the unresolved ones), and leaves no matured entry pending. -/
theorem validate_backtest_resolution (current : ℚ) (bars : List Bar) (now : ℤ)
    (st : BTState) :
    (validate_backtest current bars now st).1 =
      (st.pending.filter (matured now)).map (claimVal current) ∧
    (validate_backtest current bars now st).2.results.total =
      st.results.total + (st.pending.filter (matured now)).length ∧
    (validate_backtest current bars now st).2.results.wins =
      st.results.wins + (st.pending.filter (matured now)).countP
        (fun p => claimWin current p.price p.signal) ∧
    (validate_backtest current bars now st).2.results.losses =
      st.results.losses + (st.pending.filter (matured now)).countP
        (fun p => !claimWin current p.price p.signal) ∧
    (validate_backtest current bars now st).2.results.buy_total =
      st.results.buy_total + (st.pending.filter (matured now)).countP
        (fun p => p.signal == Sig.BUY) ∧
    (validate_backtest current bars now st).2.results.buy_wins =
      st.results.buy_wins + (st.pending.filter (matured now)).countP
        (fun p => p.signal == Sig.BUY && claimWin current p.price p.signal) ∧
    (validate_backtest current bars now st).2.results.sell_total =
      st.results.sell_total + (st.pending.filter (matured now)).countP
        (fun p => p.signal == Sig.SELL) ∧
    (validate_backtest current bars now st).2.results.sell_wins =
      st.results.sell_wins + (st.pending.filter (matured now)).countP
        (fun p => p.signal == Sig.SELL && claimWin current p.price p.signal) ∧
    (validate_backtest current bars now st).2.pending =
      (if 20 < (st.pending.filter fun p => !matured now p).length
       then takeLast 20 (st.pending.filter fun p => !matured now p)
       else st.pending.filter fun p => !matured now p) ∧
    (validate_backtest current bars now st).2.pending.all
      (fun p => !matured now p) = true := by
  have hloop := vbLoop_spec current now st.pending st.results [] [] (by simp)
  rw [List.nil_append] at hloop
  obtain ⟨f1, f2, f3, f4, f5, f6, f7⟩ :=
    countersFold_fields current (st.pending.filter (matured now)) st.results
  have hout : validate_backtest current bars now st =
      ((st.pending.filter (matured now)).map (claimVal current),
       ⟨(if 20 < (st.pending.filter fun p => !matured now p).length
         then takeLast 20 (st.pending.filter fun p => !matured now p)
         else st.pending.filter fun p => !matured now p),
        (st.pending.filter (matured now)).foldl (countersStep current) st.results,
        (if (st.pending.filter (matured now)).map (claimVal current) ≠ [] then
          some ((if 20 < (st.pending.filter fun p => !matured now p).length
            then takeLast 20 (st.pending.filter fun p => !matured now p)
            else st.pending.filter fun p => !matured now p),
            (st.pending.filter (matured now)).foldl (countersStep current)
              st.results)
         else st.disk)⟩) := by
    unfold validate_backtest
    rw [hloop]
    rfl
  rw [hout]
  simp only [List.nil_append]
  refine ⟨trivial, f1, f2, f3, f4, f5, f6, f7, trivial, ?_⟩
  apply List.all_eq_true.2
  intro p hp
  have hpf : p ∈ st.pending.filter fun p => !matured now p := by
    split at hp
    · exact List.drop_subset _ _ hp
    · exact hp
  have := (List.mem_filter.1 hpf).2
  simpa using this

/-! ## Projection lemmas for `generate_signal` with enough bars -/

theorem generate_signal_out (bars : List Bar) (bid : ℚ) (now : ℤ)
    (st : ScorerState) (h : ¬ bars.length < 50) :
    (generate_signal bars bid now st).1.signal =
      (signalDecision (computeScores bars bid).final_score).1 ∧
    (generate_signal bars bid now st).1.confidence =
      dampConfidence (computeScores bars bid).adx
        (signalDecision (computeScores bars bid).final_score).2 := by
  unfold generate_signal
  rw [if_neg h]
  exact ⟨rfl, rfl⟩

theorem generate_signal_bt2 (bars : List Bar) (bid : ℚ) (now : ℤ)
    (st : ScorerState) (h : ¬ bars.length < 50) :
    (generate_signal bars bid now st).2.bt =
      (let c := computeScores bars bid
       let signal := (signalDecision c.final_score).1
       let confidence := dampConfidence c.adx (signalDecision c.final_score).2
       let bt1 := (validate_backtest bid bars now st.bt).2
       if st.last_signal ≠ some signal then
         { bt1 with
           pending := bt1.pending ++ [⟨signal, bid, now, now, confidence⟩],
           disk := some (bt1.pending ++ [⟨signal, bid, now, now, confidence⟩],
             bt1.results) }
       else bt1) := by
  unfold generate_signal
  rw [if_neg h]

theorem generate_signal_stats1 (bars : List Bar) (bid : ℚ) (now : ℤ)
    (st : ScorerState) (h : ¬ bars.length < 50) :
    (generate_signal bars bid now st).2.signal_stats =
      (let signal := (signalDecision (computeScores bars bid).final_score).1
       if st.last_signal ≠ some signal then bumpStats st.signal_stats signal
       else st.signal_stats) := by
  unfold generate_signal
  rw [if_neg h]

theorem generate_signal_last1 (bars : List Bar) (bid : ℚ) (now : ℤ)
    (st : ScorerState) (h : ¬ bars.length < 50) :
    (generate_signal bars bid now st).2.last_signal =
      (let signal := (signalDecision (computeScores bars bid).final_score).1
       if st.last_signal ≠ some signal then some signal else st.last_signal) := by
  unfold generate_signal
  rw [if_neg h]

theorem generate_signal_hist1 (bars : List Bar) (bid : ℚ) (now : ℤ)
    (st : ScorerState) (h : ¬ bars.length < 50) :
    (generate_signal bars bid now st).2.signal_history =
      (let c := computeScores bars bid
       let signal := (signalDecision c.final_score).1
       let confidence := dampConfidence c.adx (signalDecision c.final_score).2
       let reasons :=
         if c.adx < 20 ∧ ¬ (c.reasons.any fun r => strContains "Weak trend" r) then
           c.reasons ++ ["Weak trend (ADX " ++ fmt0 c.adx ++ ")"]
         else c.reasons
       if st.last_signal ≠ some signal then
         (let hh := st.signal_history ++
            [⟨now, now, signal, pyRound bid 2, confidence,
              pyRound c.final_score 1, reasons.take 3, st.last_signal⟩]
          if 100 < hh.length then takeLast 100 hh else hh)
       else st.signal_history) := by
  unfold generate_signal
  rw [if_neg h]

/-! ## C8 — pending-queue bound -/

theorem trim20_length {α} (l : List α) :
    (if 20 < l.length then takeLast 20 l else l).length ≤ 20 := by
  split
  · unfold takeLast
    simp only [List.length_drop]
    omega
  · omega

theorem validate_pending_le20 (price : ℚ) (bars : List Bar) (now : ℤ)
    (st : BTState) : (validate_backtest price bars now st).2.pending.length ≤ 20 := by
  unfold validate_backtest
  exact trim20_length _

theorem validate_pending_eq (price : ℚ) (bars : List Bar) (now : ℤ)
    (st : BTState) :
    (validate_backtest price bars now st).2.pending =
      (if 20 < (st.pending.filter fun p => !matured now p).length
       then takeLast 20 (st.pending.filter fun p => !matured now p)
       else st.pending.filter fun p => !matured now p) := by
  have hloop := vbLoop_spec price now st.pending st.results [] [] (by simp)
  rw [List.nil_append] at hloop
  unfold validate_backtest
  rw [hloop]
  rfl

theorem validate_disk_eq (price : ℚ) (bars : List Bar) (now : ℤ) (st : BTState) :
    (validate_backtest price bars now st).2.disk =
      (if (validate_backtest price bars now st).1 ≠ [] then
        some ((validate_backtest price bars now st).2.pending,
          (validate_backtest price bars now st).2.results)
       else st.disk) := by
  unfold validate_backtest
  rfl

/-- C8 (amended): after every `validate_backtest` call the pending queue has
at most 20 entries — the unresolved entries with the oldest ones dropped and
the 20 most recent kept when more would remain.  A `generate_signal` call
with enough bars can however leave up to 21 entries (the signal-change append
happens after the truncation inside `validate_backtest`), and whenever the
call persisted the backtest state, the persisted pending list is the final
in-memory one (hence also at most 21 entries). -/
theorem pending_queue_bounds :
    (∀ (price : ℚ) (bars : List Bar) (now : ℤ) (st : BTState),
      (validate_backtest price bars now st).2.pending.length ≤ 20 ∧
      (validate_backtest price bars now st).2.pending =
        (if 20 < (st.pending.filter fun p => !matured now p).length
         then takeLast 20 (st.pending.filter fun p => !matured now p)
         else st.pending.filter fun p => !matured now p)) ∧
    (∀ (bars : List Bar) (bid : ℚ) (now : ℤ) (st : ScorerState),
      50 ≤ bars.length →
      (generate_signal bars bid now st).2.bt.pending.length ≤ 21 ∧
      ((generate_signal bars bid now st).2.bt.disk = st.bt.disk ∨
        ∃ r, (generate_signal bars bid now st).2.bt.disk =
          some ((generate_signal bars bid now st).2.bt.pending, r))) := by
  constructor
  · intro price bars now st
    exact ⟨validate_pending_le20 price bars now st, validate_pending_eq price bars now st⟩
  · intro bars bid now st h50
    have h : ¬ bars.length < 50 := by omega
    have hbt := generate_signal_bt2 bars bid now st h
    have hle := validate_pending_le20 bid bars now st.bt
    constructor
    · rw [hbt]
      dsimp only
      split
      · simp only [List.length_append, List.length_cons, List.length_nil]
        omega
      · omega
    · rw [hbt]
      dsimp only
      split
      · right
        exact ⟨(validate_backtest bid bars now st.bt).2.results, rfl⟩
      · have hd := validate_disk_eq bid bars now st.bt
        rw [hd]
        split
        · right
          exact ⟨(validate_backtest bid bars now st.bt).2.results, rfl⟩
        · left
          rfl

/-- Witness for C8 (amended), at 50 flat bars and the initial state. -/
theorem pending_queue_bounds_witness :
    (validate_backtest 2000 [] 0 st0.bt).2.pending.length ≤ 20 ∧
      (generate_signal bars50 2000 0 st0).2.bt.pending.length ≤ 21 :=
  ⟨(pending_queue_bounds.1 2000 [] 0 st0.bt).1,
   (pending_queue_bounds.2 bars50 2000 0 st0 (by decide)).1⟩

/-- A full (not matured) pending queue of 20 entries. -/
def pend20 : List Pending := List.replicate 20 ⟨Sig.HOLD, 2000, 100000, 100000, 50⟩

/-- A scorer state holding 20 pending entries with no last signal. -/
def stC8 : ScorerState := ⟨⟨pend20, ⟨0, 0, 0, 0, 0, 0, 0⟩, none⟩, [], ⟨0, 0, 0, 0, 0⟩, none⟩

/-- Counterexample to C8 as stated: one `generate_signal` call on a state
with 20 fresh pending entries leaves 21 entries in the queue and persists all
21, exceeding the claimed 20-entry bound at an observable point. -/
theorem pending_queue_exceeds_twenty :
    (generate_signal bars50 2000 100000 stC8).2.bt.pending.length = 21 ∧
    (generate_signal bars50 2000 100000 stC8).2.bt.disk =
      some ((generate_signal bars50 2000 100000 stC8).2.bt.pending,
        (generate_signal bars50 2000 100000 stC8).2.bt.results) := by
  constructor
  · decide
  · rfl

/-! ## C9 — confidence formulas -/

/-- The claim's confidence formulas amended with the `int()` truncations the
source applies: `min(95, 50 + int(|score|/2))` for BUY/SELL,
`max(30, 50 − int(|score|))` for HOLD, and `int(conf × 0.7)` when ADX < 20. -/
def claimConfidence (s adx : ℚ) (sig : Sig) : ℤ :=
  let base : ℤ :=
    match sig with
    | Sig.HOLD => max 30 (50 - pyInt |s|)
    | _ => min 95 (50 + pyInt (|s| / 2))
  if adx < 20 then pyInt ((base : ℚ) * 0.7) else base

theorem signalDecision_cases (s : ℚ) :
    ((signalDecision s).1 = Sig.BUY ↔ s > 35) ∧
    ((signalDecision s).1 = Sig.SELL ↔ s < -35) ∧
    ((signalDecision s).2 =
      match (signalDecision s).1 with
      | Sig.HOLD => max 30 (50 - pyInt |s|)
      | _ => min 95 (50 + pyInt (|s| / 2))) := by
  unfold signalDecision
  by_cases h1 : s > 35
  · rw [if_pos h1]
    refine ⟨by simp [h1], by simp; linarith, ?_⟩
    show min 95 (50 + pyInt (s / 2)) = min 95 (50 + pyInt (|s| / 2))
    rw [abs_of_pos (by linarith)]
  · rw [if_neg h1]
    by_cases h2 : s < -35
    · rw [if_pos h2]
      exact ⟨by simp; linarith, by simp [h2], rfl⟩
    · rw [if_neg h2]
      exact ⟨by simp; linarith, by simp [h2], rfl⟩

/-- C9 (amended): with enough bars, the emitted signal is BUY exactly above
the +35 score band and SELL exactly below −35, and the returned confidence is
`min(95, 50 + int(|score|/2))` for BUY/SELL and `max(30, 50 − int(|score|))`
for HOLD, further truncated through `int(· × 0.7)` whenever ADX < 20. -/
theorem confidence_formula_floor (bars : List Bar) (bid : ℚ) (now : ℤ)
    (st : ScorerState) (h50 : 50 ≤ bars.length) :
    ((generate_signal bars bid now st).1.signal = Sig.BUY ↔
      (computeScores bars bid).final_score > 35) ∧
    ((generate_signal bars bid now st).1.signal = Sig.SELL ↔
      (computeScores bars bid).final_score < -35) ∧
    (generate_signal bars bid now st).1.confidence =
      claimConfidence (computeScores bars bid).final_score
        (computeScores bars bid).adx (generate_signal bars bid now st).1.signal := by
  have h : ¬ bars.length < 50 := by omega
  obtain ⟨hs, hc⟩ := generate_signal_out bars bid now st h
  obtain ⟨d1, d2, d3⟩ := signalDecision_cases (computeScores bars bid).final_score
  refine ⟨by rw [hs]; exact d1, by rw [hs]; exact d2, ?_⟩
  rw [hc, hs]
  unfold dampConfidence claimConfidence
  rw [d3]

/-- Witness for C9 (amended) at 50 flat bars. -/
theorem confidence_formula_floor_witness :
    (50 ≤ bars50.length) ∧
      (generate_signal bars50 2000 0 st0).1.confidence =
        claimConfidence (computeScores bars50 2000).final_score
          (computeScores bars50 2000).adx
          (generate_signal bars50 2000 0 st0).1.signal :=
  ⟨by decide, (confidence_formula_floor bars50 2000 0 st0 (by decide)).2.2⟩

/-- Counterexample to C9 as stated: on 50 identical-price bars the composite
score is −12.5 and ADX is 25 (no damping), the emitted signal is HOLD with
returned confidence 38, but the claimed real-valued formula
`max(30, 50 − |score|)` gives 37.5 ≠ 38 — the source truncates with `int()`. -/
theorem confidence_formula_counterexample :
    (computeScores bars50 2000).final_score = -12.5 ∧
    (computeScores bars50 2000).adx = 25 ∧
    (generate_signal bars50 2000 0 st0).1.signal = Sig.HOLD ∧
    (generate_signal bars50 2000 0 st0).1.confidence = 38 ∧
    ((38 : ℚ) ≠ max 30 (50 - |(-12.5 : ℚ)|)) :=
  ⟨by decide, by decide, by decide, by decide, by decide⟩

/-! ## C10 — the first evaluated signal always counts as a change -/

theorem bumpStats_total (s : SignalStats) (sig : Sig) :
    (bumpStats s sig).total = s.total + 1 := by
  cases sig <;> rfl

/-- The appended entry survives the 100-cap trim of `signal_history`. -/
theorem trim100_getLast {α} (l : List α) (e : α) :
    (if 100 < (l ++ [e]).length then takeLast 100 (l ++ [e])
     else l ++ [e]).getLast? = some e := by
  split
  next hlen =>
    unfold takeLast
    rw [List.drop_append_of_le_length ?_]
    · exact List.getLast?_concat _
    · simp only [List.length_append, List.length_singleton] at hlen ⊢
      omega
  next _ => exact List.getLast?_concat _

/-- C10: because the last-signal memory starts as `None`, the first call of
`generate_signal` with at least 50 bars always registers a signal change,
whichever signal it emits: the change counter and the per-signal counter are
incremented, a pending entry carrying the emitted signal, price and
confidence is appended and the backtest state is persisted, a history entry
with `prev_signal = None` and the emitted signal is appended, and the
last-signal memory becomes the emitted signal. -/
theorem first_signal_always_changes (bars : List Bar) (bid : ℚ) (now : ℤ)
    (st : ScorerState) (hnone : st.last_signal = none) (h50 : 50 ≤ bars.length) :
    (generate_signal bars bid now st).2.signal_stats.total =
      st.signal_stats.total + 1 ∧
    ((generate_signal bars bid now st).1.signal = Sig.BUY →
      (generate_signal bars bid now st).2.signal_stats.buy =
        st.signal_stats.buy + 1) ∧
    ((generate_signal bars bid now st).1.signal = Sig.SELL →
      (generate_signal bars bid now st).2.signal_stats.sell =
        st.signal_stats.sell + 1) ∧
    ((generate_signal bars bid now st).1.signal = Sig.HOLD →
      (generate_signal bars bid now st).2.signal_stats.hold =
        st.signal_stats.hold + 1) ∧
    (generate_signal bars bid now st).2.bt.pending.getLast? =
      some ⟨(generate_signal bars bid now st).1.signal, bid, now, now,
        (generate_signal bars bid now st).1.confidence⟩ ∧
    (generate_signal bars bid now st).2.bt.disk =
      some ((generate_signal bars bid now st).2.bt.pending,
        (generate_signal bars bid now st).2.bt.results) ∧
    ((generate_signal bars bid now st).2.signal_history.getLast?).map
      (fun e => e.prev_signal) = some none ∧
    ((generate_signal bars bid now st).2.signal_history.getLast?).map
      (fun e => e.signal) = some (generate_signal bars bid now st).1.signal ∧
    (generate_signal bars bid now st).2.last_signal =
      some (generate_signal bars bid now st).1.signal := by
  have h : ¬ bars.length < 50 := by omega
  obtain ⟨hs, hc⟩ := generate_signal_out bars bid now st h
  have hch : st.last_signal ≠
      some (signalDecision (computeScores bars bid).final_score).1 := by
    rw [hnone]; simp
  have hstats := generate_signal_stats1 bars bid now st h
  rw [if_pos hch] at hstats
  have hbt := generate_signal_bt2 bars bid now st h
  rw [if_pos hch] at hbt
  have hhist := generate_signal_hist1 bars bid now st h
  rw [if_pos hch] at hhist
  have hlast := generate_signal_last1 bars bid now st h
  rw [if_pos hch] at hlast
  refine ⟨?_, ?_, ?_, ?_, ?_, ?_, ?_, ?_, ?_⟩
  · rw [hstats]; exact bumpStats_total _ _
  · intro hb; rw [hs] at hb; rw [hstats, hb]; rfl
  · intro hb; rw [hs] at hb; rw [hstats, hb]; rfl
  · intro hb; rw [hs] at hb; rw [hstats, hb]; rfl
  · rw [hbt, hs, hc]
    exact List.getLast?_concat _
  · rw [hbt]
  · rw [hhist]
    rw [trim100_getLast]
    simp [hnone]
  · rw [hhist, hs]
    rw [trim100_getLast]
    simp
  · rw [hlast, hs]

/-- Witness for C10 at 50 flat bars and the initial (last-signal `None`)
state. -/
theorem first_signal_always_changes_witness :
    (st0.last_signal = none ∧ 50 ≤ bars50.length) ∧
      (generate_signal bars50 2000 7 st0).2.signal_stats.total =
          st0.signal_stats.total + 1 ∧
        (generate_signal bars50 2000 7 st0).2.last_signal =
          some (generate_signal bars50 2000 7 st0).1.signal :=
  ⟨⟨rfl, by decide⟩,
   (first_signal_always_changes bars50 2000 7 st0 rfl (by decide)).1,
   (first_signal_always_changes bars50 2000 7 st0 rfl (by decide)).2.2.2.2.2.2.2.2⟩

/-! ## C2–C4 — bar-cache lemmas -/

theorem timeLeB_trans : ∀ a b c : Option ℤ,
    timeLeB a b = true → timeLeB b c = true → timeLeB a c = true
  | none, _, _, _, _ => rfl
  | some _, none, _, h, _ => by simp [timeLeB] at h
  | some _, some _, none, _, h => by simp [timeLeB] at h
  | some x, some y, some z, h1, h2 => by
    simp only [timeLeB, decide_eq_true_eq] at *
    omega

theorem timeLeB_total : ∀ a b : Option ℤ, (timeLeB a b || timeLeB b a) = true
  | none, _ => rfl
  | some _, none => rfl
  | some x, some y => by
    simp only [timeLeB, Bool.or_eq_true, decide_eq_true_eq]
    omega

theorem length_updateFirst (t : Option ℤ) (bar : Bar) :
    ∀ l : List Bar, (updateFirst t bar l).length = l.length := by
  intro l
  induction l with
  | nil => rfl
  | cons cb rest ih =>
    unfold updateFirst
    split
    · simp
    · simp [ih]

theorem updateFirst_map_time (t : Option ℤ) (bar : Bar) (ht : bar.time = t) :
    ∀ l : List Bar, (updateFirst t bar l).map (·.time) = l.map (·.time) := by
  intro l
  induction l with
  | nil => rfl
  | cons cb rest ih =>
    unfold updateFirst
    split
    next heq => simp [ht, heq]
    next => simp [ih]

theorem mem_updateFirst (t : Option ℤ) (bar : Bar) :
    ∀ l : List Bar, ∀ x ∈ updateFirst t bar l, x = bar ∨ x ∈ l := by
  intro l
  induction l with
  | nil => simp [updateFirst]
  | cons cb rest ih =>
    intro x hx
    unfold updateFirst at hx
    split at hx
    · rcases List.mem_cons.1 hx with rfl | hmem
      · exact Or.inl rfl
      · exact Or.inr (List.mem_cons_of_mem _ hmem)
    · rcases List.mem_cons.1 hx with rfl | hmem
      · exact Or.inr (List.mem_cons_self _ _)
      · rcases ih x hmem with h | h
        · exact Or.inl h
        · exact Or.inr (List.mem_cons_of_mem _ h)

/-- In a cache with pairwise-distinct times, replacing the (unique) entry at
time `t` by `bar` makes `bar` the only entry at time `t`. -/
theorem filter_updateFirst (t : Option ℤ) (bar : Bar) (ht : bar.time = t) :
    ∀ l : List Bar, (l.map (·.time)).Nodup → t ∈ l.map (·.time) →
      (updateFirst t bar l).filter (fun cb => decide (cb.time = t)) = [bar] := by
  intro l
  induction l with
  | nil => simp
  | cons cb rest ih =>
    intro hnd hmem
    simp only [List.map_cons, List.nodup_cons] at hnd
    unfold updateFirst
    split
    next heq =>
      simp only [List.filter_cons, ht, decide_true_eq_true, if_pos]
      have : rest.filter (fun cb => decide (cb.time = t)) = [] := by
        refine List.filter_eq_nil_iff.2 fun x hx => ?_
        simp only [decide_eq_true_eq]
        intro hxt
        exact hnd.1 (heq ▸ hxt ▸ List.mem_map_of_mem (·.time) hx)
      simp [this]
    next hne =>
      have hmem' : t ∈ rest.map (·.time) := by
        rcases List.mem_cons.1 hmem with h | h
        · exact absurd h.symm hne
        · exact h
      simp only [List.filter_cons]
      rw [if_neg (by simp [hne])]
      exact ih hnd.2 hmem'

/-- The two-part invariant carried through the merge loop: cache times are
pairwise distinct, and every cache time is in the `existing_times` set. -/
def MergeAccInv (acc : MergeAcc) : Prop :=
  (acc.cache.map (·.time)).Nodup ∧ ∀ t ∈ acc.cache.map (·.time), t ∈ acc.times

theorem mergeStep_inv (acc : MergeAcc) (bar : Bar) (h : MergeAccInv acc) :
    MergeAccInv (mergeStep acc bar) := by
  obtain ⟨hnd, hsub⟩ := h
  unfold mergeStep
  split
  · exact ⟨hnd, hsub⟩
  · split
    · exact ⟨hnd, hsub⟩
    next t heq =>
      split
      next hmem =>
        refine ⟨?_, ?_⟩
        · rw [updateFirst_map_time (some t) bar heq]
          exact hnd
        · intro u hu
          rw [updateFirst_map_time (some t) bar heq] at hu
          exact hsub u hu
      next hmem =>
        refine ⟨?_, ?_⟩
        · simp only [List.map_append, List.map_cons, List.map_nil]
          rw [List.nodup_append]
          refine ⟨hnd, List.nodup_singleton _, ?_⟩
          intro u hu
          simp only [List.mem_singleton, heq]
          intro hut
          rw [hut] at hu
          exact hmem (hsub _ hu)
        · intro u hu
          simp only [List.map_append, List.map_cons, List.map_nil,
            List.mem_append, List.mem_singleton] at hu
          rcases hu with hu | hu
          · exact List.mem_cons_of_mem _ (hsub u hu)
          · rw [hu, heq]; exact List.mem_cons_self _ _

theorem mergeFold_inv (new_bars : List Bar) :
    ∀ acc : MergeAcc, MergeAccInv acc →
      MergeAccInv (new_bars.foldl mergeStep acc) := by
  induction new_bars with
  | nil => intro acc h; exact h
  | cons b rest ih =>
    intro acc h
    exact ih _ (mergeStep_inv acc b h)

theorem mergeStep_cases (acc : MergeAcc) (bar : Bar) :
    mergeStep acc bar = acc ∨
      (mergeStep acc bar).added + (mergeStep acc bar).updated =
        acc.added + acc.updated + 1 := by
  unfold mergeStep
  split
  · exact Or.inl rfl
  · split
    · exact Or.inl rfl
    · split
      · right; simp; omega
      · right; simp; omega

theorem mergeFold_counters_mono (new_bars : List Bar) :
    ∀ acc : MergeAcc,
      acc.added + acc.updated ≤
        (new_bars.foldl mergeStep acc).added + (new_bars.foldl mergeStep acc).updated := by
  induction new_bars with
  | nil => intro acc; simp
  | cons b rest ih =>
    intro acc
    simp only [List.foldl_cons]
    rcases mergeStep_cases acc b with h | h
    · rw [h]; exact ih acc
    · have := ih (mergeStep acc b)
      omega

theorem mergeFold_unchanged (new_bars : List Bar) :
    ∀ acc : MergeAcc,
      (new_bars.foldl mergeStep acc).added + (new_bars.foldl mergeStep acc).updated =
        acc.added + acc.updated →
      new_bars.foldl mergeStep acc = acc := by
  induction new_bars with
  | nil => intro acc _; rfl
  | cons b rest ih =>
    intro acc heq
    simp only [List.foldl_cons] at heq ⊢
    rcases mergeStep_cases acc b with h | h
    · rw [h] at heq ⊢; exact ih acc heq
    · have := mergeFold_counters_mono rest (mergeStep acc b)
      omega

theorem barLe_trans : ∀ a b c : Bar, timeLeB a.time b.time = true →
    timeLeB b.time c.time = true → timeLeB a.time c.time = true :=
  fun a b c h1 h2 => timeLeB_trans a.time b.time c.time h1 h2

theorem barLe_total : ∀ a b : Bar,
    (timeLeB a.time b.time || timeLeB b.time a.time) = true :=
  fun a b => timeLeB_total a.time b.time

/-- C3: if the cache held at most 2000 bars with strictly increasing (hence
pairwise-distinct) timestamps, then after any `merge_bars_into_cache` call it
still does, and any entry of the merged-but-untrimmed cache that was evicted
by the 2000-bar trim has a timestamp no larger than every entry that was
kept. -/
theorem merge_cache_invariant (st : M5State) (new_bars : List Bar)
    (hinv : st.cache.length ≤ 2000 ∧ List.Pairwise barTimeLt st.cache) :
    ((merge_bars_into_cache new_bars st).cache.length ≤ 2000 ∧
      List.Pairwise barTimeLt (merge_bars_into_cache new_bars st).cache) ∧
    ∀ b ∈ (mergeRaw st new_bars).cache,
      b ∉ (merge_bars_into_cache new_bars st).cache →
      ∀ b' ∈ (merge_bars_into_cache new_bars st).cache,
        timeLeB b.time b'.time = true := by
  obtain ⟨hlen, hpw⟩ := hinv
  have hnd0 : (st.cache.map (·.time)).Nodup := by
    rw [List.Nodup, List.pairwise_map]
    exact hpw.imp fun h => h.2
  by_cases hnil : new_bars = []
  · have hmerge : merge_bars_into_cache new_bars st = st := by
      unfold merge_bars_into_cache
      rw [if_pos hnil]
    have hraw : (mergeRaw st new_bars).cache = st.cache := by
      rw [hnil]; rfl
    rw [hmerge, hraw]
    exact ⟨⟨hlen, hpw⟩, fun b hb hnb _ _ => absurd hb hnb⟩
  · have haccInv : MergeAccInv (mergeRaw st new_bars) :=
      mergeFold_inv new_bars _ ⟨hnd0, fun t ht => ht⟩
    by_cases hch : 0 < (mergeRaw st new_bars).added ∨ 0 < (mergeRaw st new_bars).updated
    · have hmerge : merge_bars_into_cache new_bars st =
          { st with
            cache := takeLast 2000 ((mergeRaw st new_bars).cache.mergeSort
              fun a b => timeLeB a.time b.time),
            dirty := true } := by
        unfold merge_bars_into_cache
        rw [if_neg hnil]
        dsimp only
        rw [if_pos hch]
        rfl
      have hsorted := @List.sorted_mergeSort Bar
        (fun a b => timeLeB a.time b.time)
        barLe_trans barLe_total (mergeRaw st new_bars).cache
      have hperm := List.mergeSort_perm (mergeRaw st new_bars).cache
        (fun a b => timeLeB a.time b.time)
      have hndS : ((((mergeRaw st new_bars).cache.mergeSort
          fun a b => timeLeB a.time b.time)).map (·.time)).Nodup :=
        ((hperm.map (·.time)).nodup_iff).2 haccInv.1
      have hpwS : List.Pairwise barTimeLt ((mergeRaw st new_bars).cache.mergeSort
          fun a b => timeLeB a.time b.time) := by
        have hne : List.Pairwise (fun a b : Bar => a.time ≠ b.time)
            ((mergeRaw st new_bars).cache.mergeSort
              fun a b => timeLeB a.time b.time) :=
          List.pairwise_map.1 hndS
        exact (hsorted.and hne).imp fun h => ⟨h.1, h.2⟩
      rw [hmerge]
      dsimp only
      unfold takeLast
      refine ⟨⟨?_, ?_⟩, ?_⟩
      · simp only [List.length_drop]
        omega
      · exact hpwS.drop
      · intro b hb hnb b' hb'
        have hbS : b ∈ (mergeRaw st new_bars).cache.mergeSort
            (fun a b => timeLeB a.time b.time) := List.mem_mergeSort.2 hb
        have hsplit := List.take_append_drop
          (((mergeRaw st new_bars).cache.mergeSort
            fun a b => timeLeB a.time b.time).length - 2000)
          ((mergeRaw st new_bars).cache.mergeSort fun a b => timeLeB a.time b.time)
        have hbtake : b ∈ ((mergeRaw st new_bars).cache.mergeSort
            fun a b => timeLeB a.time b.time).take
              (((mergeRaw st new_bars).cache.mergeSort
                fun a b => timeLeB a.time b.time).length - 2000) := by
          rw [← hsplit] at hbS
          rcases List.mem_append.1 hbS with h | h
          · exact h
          · exact absurd h hnb
        have hpwA := hsorted
        rw [← hsplit] at hpwA
        exact ((List.pairwise_append.1 hpwA).2.2) b hbtake b' hb'
    · have hzero : (mergeRaw st new_bars).added = 0 ∧
          (mergeRaw st new_bars).updated = 0 := by
        push_neg at hch
        omega
      have hacc0 : mergeRaw st new_bars =
          ⟨st.cache, st.cache.map (·.time), 0, 0⟩ := by
        apply mergeFold_unchanged
        show (mergeRaw st new_bars).added + (mergeRaw st new_bars).updated = 0 + 0
        omega
      have hmerge : merge_bars_into_cache new_bars st =
          { st with cache := (mergeRaw st new_bars).cache } := by
        unfold merge_bars_into_cache
        rw [if_neg hnil]
        dsimp only
        rw [if_neg hch]
      rw [hmerge, hacc0]
      exact ⟨⟨hlen, hpw⟩, fun b hb hnb _ _ => absurd hb hnb⟩

theorem takeLast_of_le {α} (l : List α) (n : ℕ) (h : l.length ≤ n) :
    takeLast n l = l := by
  unfold takeLast
  rw [Nat.sub_eq_zero_of_le h, List.drop_zero]

theorem mergeRaw_single (st : M5State) (b : Bar) (t : ℤ)
    (hs : b.synthetic = false) (ht : b.time = some t) :
    mergeRaw st [b] =
      if some t ∈ st.cache.map (·.time) then
        ⟨updateFirst (some t) b st.cache, st.cache.map (·.time), 0, 1⟩
      else
        ⟨st.cache ++ [b], some t :: st.cache.map (·.time), 1, 0⟩ := by
  unfold mergeRaw
  simp only [List.foldl_cons, List.foldl_nil]
  unfold mergeStep
  rw [hs]
  simp only [Bool.false_eq_true, if_false, ht]

theorem merge_single_eq (st : M5State) (b : Bar) (t : ℤ)
    (hs : b.synthetic = false) (ht : b.time = some t) :
    merge_bars_into_cache [b] st =
      if some t ∈ st.cache.map (·.time) then
        { st with
          cache := takeLast 2000 ((updateFirst (some t) b st.cache).mergeSort
            fun a b => timeLeB a.time b.time),
          dirty := true }
      else
        { st with
          cache := takeLast 2000 ((st.cache ++ [b]).mergeSort
            fun a b => timeLeB a.time b.time),
          dirty := true } := by
  unfold merge_bars_into_cache
  rw [if_neg (by simp), mergeRaw_single st b t hs ht]
  by_cases hmem : some t ∈ st.cache.map (·.time)
  · rw [if_pos hmem, if_pos hmem]
    dsimp only
    rw [if_pos (by simp)]
    rfl
  · rw [if_neg hmem, if_neg hmem]
    dsimp only
    rw [if_pos (by simp)]
    rfl

/-- Merging one non-synthetic bar whose timestamp is already in a
duplicate-free cache: the cache keeps its size, stays duplicate-free, and the
new bar is the unique entry at that timestamp. -/
theorem merge_update_package (st : M5State) (b : Bar) (t : ℤ)
    (hs : b.synthetic = false) (ht : b.time = some t)
    (hnd : (st.cache.map (·.time)).Nodup)
    (hmem : some t ∈ st.cache.map (·.time)) (hlen : st.cache.length ≤ 2000) :
    (merge_bars_into_cache [b] st).cache.filter
      (fun cb => decide (cb.time = some t)) = [b] ∧
    (merge_bars_into_cache [b] st).cache.length = st.cache.length ∧
    ((merge_bars_into_cache [b] st).cache.map (·.time)).Nodup ∧
    some t ∈ (merge_bars_into_cache [b] st).cache.map (·.time) := by
  have hmerge := merge_single_eq st b t hs ht
  rw [if_pos hmem] at hmerge
  have hlenU : (updateFirst (some t) b st.cache).length = st.cache.length :=
    length_updateFirst _ _ _
  have hcache : (merge_bars_into_cache [b] st).cache =
      (updateFirst (some t) b st.cache).mergeSort
        fun a b => timeLeB a.time b.time := by
    rw [hmerge]
    dsimp only
    exact takeLast_of_le _ _ (by rw [List.length_mergeSort, hlenU]; exact hlen)
  have hperm := List.mergeSort_perm (updateFirst (some t) b st.cache)
    (fun a b => timeLeB a.time b.time)
  have hfilter : (merge_bars_into_cache [b] st).cache.filter
      (fun cb => decide (cb.time = some t)) = [b] := by
    rw [hcache]
    refine List.perm_singleton.1 ?_
    rw [← filter_updateFirst (some t) b ht st.cache hnd hmem]
    exact hperm.filter _
  have hmemb : b ∈ (merge_bars_into_cache [b] st).cache := by
    have : b ∈ (merge_bars_into_cache [b] st).cache.filter
        (fun cb => decide (cb.time = some t)) := by
      rw [hfilter]; exact List.mem_singleton.2 rfl
    exact (List.mem_filter.1 this).1
  refine ⟨hfilter, ?_, ?_, ?_⟩
  · rw [hcache, List.length_mergeSort, hlenU]
  · rw [hcache]
    refine ((hperm.map (·.time)).nodup_iff).2 ?_
    rw [updateFirst_map_time (some t) b ht]
    exact hnd
  · rw [← ht]
    exact List.mem_map_of_mem (·.time) hmemb

/-- Merging one non-synthetic bar whose timestamp is absent from a
duplicate-free, not-yet-full cache: the bar is appended (cache grows by one,
stays duplicate-free) and is the unique entry at its timestamp. -/
theorem merge_append_package (st : M5State) (b : Bar) (t : ℤ)
    (hs : b.synthetic = false) (ht : b.time = some t)
    (hnd : (st.cache.map (·.time)).Nodup)
    (hmem : some t ∉ st.cache.map (·.time)) (hlen : st.cache.length < 2000) :
    (merge_bars_into_cache [b] st).cache.filter
      (fun cb => decide (cb.time = some t)) = [b] ∧
    (merge_bars_into_cache [b] st).cache.length = st.cache.length + 1 ∧
    ((merge_bars_into_cache [b] st).cache.map (·.time)).Nodup ∧
    some t ∈ (merge_bars_into_cache [b] st).cache.map (·.time) ∧
    b ∈ (merge_bars_into_cache [b] st).cache := by
  have hmerge := merge_single_eq st b t hs ht
  rw [if_neg hmem] at hmerge
  have hcache : (merge_bars_into_cache [b] st).cache =
      (st.cache ++ [b]).mergeSort fun a b => timeLeB a.time b.time := by
    rw [hmerge]
    dsimp only
    exact takeLast_of_le _ _
      (by rw [List.length_mergeSort]; simp only [List.length_append]; simp; omega)
  have hperm := List.mergeSort_perm (st.cache ++ [b])
    (fun a b => timeLeB a.time b.time)
  have hfilterRaw : (st.cache ++ [b]).filter
      (fun cb => decide (cb.time = some t)) = [b] := by
    rw [List.filter_append]
    have h1 : st.cache.filter (fun cb => decide (cb.time = some t)) = [] := by
      refine List.filter_eq_nil_iff.2 fun x hx => ?_
      simp only [decide_eq_true_eq]
      intro hxt
      exact hmem (hxt ▸ List.mem_map_of_mem (·.time) hx)
    rw [h1]
    simp [ht]
  have hfilter : (merge_bars_into_cache [b] st).cache.filter
      (fun cb => decide (cb.time = some t)) = [b] := by
    rw [hcache]
    have hpf := hperm.filter (fun cb => decide (cb.time = some t))
    rw [hfilterRaw] at hpf
    exact List.perm_singleton.1 hpf
  have hmemb : b ∈ (merge_bars_into_cache [b] st).cache := by
    rw [hcache]
    exact List.mem_mergeSort.2 (List.mem_append.2 (Or.inr (List.mem_singleton.2 rfl)))
  refine ⟨hfilter, ?_, ?_, ?_, hmemb⟩
  · rw [hcache, List.length_mergeSort]
    simp
  · rw [hcache]
    refine ((hperm.map (·.time)).nodup_iff).2 ?_
    simp only [List.map_append, List.map_cons, List.map_nil, ht]
    rw [List.nodup_append]
    refine ⟨hnd, List.nodup_singleton _, ?_⟩
    intro u hu
    simp only [List.mem_singleton]
    intro hut
    exact hmem (hut ▸ hu)
  · rw [← ht]
    exact List.mem_map_of_mem (·.time) hmemb

/-- C2: against a duplicate-free cache with room, a non-synthetic bar whose
timestamp is new is appended; one whose timestamp already exists overwrites
that entry in place (same cache size); and merging two bars with the same
timestamp in succession leaves exactly one cache entry at that timestamp,
holding the second bar. -/
theorem merge_overwrite_idempotent (st : M5State) (b1 b2 : Bar) (t : ℤ)
    (hnd : (st.cache.map (·.time)).Nodup) (hlen : st.cache.length < 2000)
    (hs1 : b1.synthetic = false) (hs2 : b2.synthetic = false)
    (ht1 : b1.time = some t) (ht2 : b2.time = some t) :
    (some t ∉ st.cache.map (·.time) →
      b1 ∈ (merge_bars_into_cache [b1] st).cache ∧
      (merge_bars_into_cache [b1] st).cache.length = st.cache.length + 1) ∧
    (some t ∈ st.cache.map (·.time) →
      (merge_bars_into_cache [b1] st).cache.length = st.cache.length ∧
      (merge_bars_into_cache [b1] st).cache.filter
        (fun cb => decide (cb.time = some t)) = [b1]) ∧
    (merge_bars_into_cache [b2] (merge_bars_into_cache [b1] st)).cache.filter
      (fun cb => decide (cb.time = some t)) = [b2] := by
  refine ⟨?_, ?_, ?_⟩
  · intro hmem
    obtain ⟨_, hl, _, _, hb⟩ := merge_append_package st b1 t hs1 ht1 hnd hmem hlen
    exact ⟨hb, hl⟩
  · intro hmem
    obtain ⟨hf, hl, _, _⟩ :=
      merge_update_package st b1 t hs1 ht1 hnd hmem (by omega)
    exact ⟨hl, hf⟩
  · by_cases hmem : some t ∈ st.cache.map (·.time)
    · obtain ⟨_, hl, hnd1, hm1⟩ :=
        merge_update_package st b1 t hs1 ht1 hnd hmem (by omega)
      exact (merge_update_package _ b2 t hs2 ht2 hnd1 hm1 (by omega)).1
    · obtain ⟨_, hl, hnd1, hm1, _⟩ :=
        merge_append_package st b1 t hs1 ht1 hnd hmem hlen
      exact (merge_update_package _ b2 t hs2 ht2 hnd1 hm1 (by omega)).1

/-! ## C4 — synthetic bars never merged or persisted -/

theorem mergeStep_clean (acc : MergeAcc) (bar : Bar)
    (h : ∀ b ∈ acc.cache, b.synthetic = false) :
    ∀ b ∈ (mergeStep acc bar).cache, b.synthetic = false := by
  unfold mergeStep
  split
  · exact h
  next hsyn =>
    have hbar : bar.synthetic = false := by
      revert hsyn
      cases bar.synthetic <;> simp
    split
    · exact h
    · split
      · intro b hb
        rcases mem_updateFirst _ bar acc.cache b hb with rfl | hmem
        · exact hbar
        · exact h b hmem
      · intro b hb
        rcases List.mem_append.1 hb with hmem | hmem
        · exact h b hmem
        · rw [List.mem_singleton.1 hmem]
          exact hbar

theorem mergeFold_clean (new_bars : List Bar) :
    ∀ acc : MergeAcc, (∀ b ∈ acc.cache, b.synthetic = false) →
      ∀ b ∈ (new_bars.foldl mergeStep acc).cache, b.synthetic = false := by
  induction new_bars with
  | nil => intro acc h; exact h
  | cons bar rest ih =>
    intro acc h
    exact ih _ (mergeStep_clean acc bar h)

theorem merge_cache_subset (st : M5State) (new_bars : List Bar) :
    ∀ b ∈ (merge_bars_into_cache new_bars st).cache,
      b ∈ (mergeRaw st new_bars).cache := by
  intro b hb
  unfold merge_bars_into_cache at hb
  split at hb
  next hnil =>
    rw [hnil]
    exact hb
  next =>
    dsimp only at hb
    split at hb
    · dsimp only at hb
      unfold takeLast at hb
      have h2 := List.drop_subset _ _ hb
      exact List.mem_mergeSort.1 h2
    · exact hb

/-- C4: a flagged-synthetic bar is never inserted into the cache by
`merge_bars_into_cache` (a synthetic-free cache stays synthetic-free for any
batch), the merge itself never writes to disk, and whatever snapshot
`save_m5_cache` writes is exactly the (synthetic-free) in-memory cache. -/
theorem merge_save_no_synthetic (st : M5State) (new_bars : List Bar) (now : ℤ)
    (hclean : ∀ b ∈ st.cache, b.synthetic = false) :
    (∀ b ∈ (merge_bars_into_cache new_bars st).cache, b.synthetic = false) ∧
    (merge_bars_into_cache new_bars st).disk = st.disk ∧
    ((merge_bars_into_cache new_bars st).dirty = true →
      (save_m5_cache now (merge_bars_into_cache new_bars st)).disk =
        some (merge_bars_into_cache new_bars st).cache) ∧
    ((merge_bars_into_cache new_bars st).dirty = false →
      (save_m5_cache now (merge_bars_into_cache new_bars st)).disk = st.disk) := by
  have hcleanM : ∀ b ∈ (merge_bars_into_cache new_bars st).cache,
      b.synthetic = false := by
    intro b hb
    exact mergeFold_clean new_bars _ hclean b (merge_cache_subset st new_bars b hb)
  have hdisk : (merge_bars_into_cache new_bars st).disk = st.disk := by
    unfold merge_bars_into_cache
    split
    · rfl
    · dsimp only
      split <;> rfl
  refine ⟨hcleanM, hdisk, ?_, ?_⟩
  · intro hdirty
    unfold save_m5_cache
    rw [if_neg (by rw [hdirty]; simp)]
  · intro hdirty
    unfold save_m5_cache
    rw [if_pos hdirty]
    exact hdisk

/-! ## Witnesses for the cache claims -/

/-- A real cached bar at timestamp `t`. -/
def cacheBar (t : ℤ) : Bar := ⟨some t, 2000, 2001, 1999, 2000, 100, false⟩

/-- A two-bar cache state with ascending distinct timestamps. -/
def stM5 : M5State := ⟨[cacheBar 300, cacheBar 600], false, none, 0⟩

/-- First revision of an in-progress candle at timestamp 600. -/
def rev1 : Bar := ⟨some 600, 2000, 2002, 1998, 2001, 200, false⟩

/-- Second revision of the same candle (same timestamp, different close). -/
def rev2 : Bar := ⟨some 600, 2000, 2003, 1998, 2002, 300, false⟩

/-- Witness for C2: merging the two revisions of the timestamp-600 candle in
succession leaves exactly one entry at that timestamp, holding the second
revision. -/
theorem merge_overwrite_idempotent_witness :
    ((stM5.cache.map (·.time)).Nodup ∧ stM5.cache.length < 2000) ∧
      (merge_bars_into_cache [rev2] (merge_bars_into_cache [rev1] stM5)).cache.filter
        (fun cb => decide (cb.time = some 600)) = [rev2] := by
  have hnd : (stM5.cache.map (·.time)).Nodup := by decide
  exact ⟨⟨hnd, by decide⟩,
    (merge_overwrite_idempotent stM5 rev1 rev2 600 hnd (by decide)
      rfl rfl rfl rfl).2.2⟩

/-- Witness for C3 at the two-bar cache and a one-bar batch. -/
theorem merge_cache_invariant_witness :
    (stM5.cache.length ≤ 2000 ∧ List.Pairwise barTimeLt stM5.cache) ∧
      ((merge_bars_into_cache [cacheBar 900] stM5).cache.length ≤ 2000 ∧
        List.Pairwise barTimeLt (merge_bars_into_cache [cacheBar 900] stM5).cache) := by
  have hinv : stM5.cache.length ≤ 2000 ∧ List.Pairwise barTimeLt stM5.cache := by
    refine ⟨by decide, ?_⟩
    simp only [stM5, List.pairwise_cons, List.mem_singleton]
    refine ⟨fun b hb => ?_, by simp⟩
    rw [hb]
    exact ⟨by decide, by decide⟩
  exact ⟨hinv, (merge_cache_invariant stM5 [cacheBar 900] hinv).1⟩

/-- A synthetic bar at timestamp 900. -/
def synBar : Bar := ⟨some 900, 2000, 2001, 1999, 2000, 1000, true⟩

/-- Witness for C4: merging a batch holding a synthetic bar into a clean
cache keeps the cache synthetic-free, and the snapshot the save then writes
is that synthetic-free cache. -/
theorem merge_save_no_synthetic_witness :
    (∀ b ∈ stM5.cache, b.synthetic = false) ∧
      (∀ b ∈ (merge_bars_into_cache [synBar, cacheBar 900] stM5).cache,
        b.synthetic = false) := by
  have hclean : ∀ b ∈ stM5.cache, b.synthetic = false := by decide
  exact ⟨hclean,
    (merge_save_no_synthetic stM5 [synBar, cacheBar 900] 60 hclean).1⟩

/-! ## C7 — bar aggregator output -/

theorem flatMap_eq_map {α β} (f : α → List β) (g : α → β) :
    ∀ l : List α, (∀ a ∈ l, f a = [g a]) → l.flatMap f = l.map g := by
  intro l
  induction l with
  | nil => intro _; rfl
  | cons a rest ih =>
    intro h
    simp only [List.flatMap_cons, List.map_cons, h a (List.mem_cons_self a rest)]
    rw [ih fun x hx => h x (List.mem_cons_of_mem a hx)]
    rfl

theorem chain'_suffix {α} {R : α → α → Prop} {l s : List α}
    (h : List.Chain' R l) (hs : s <:+ l) : List.Chain' R s := by
  obtain ⟨pre, rfl⟩ := hs
  exact (List.chain'_append.1 h).2.1

/-- Every bar emitted by the real-bar aggregation is non-synthetic. -/
theorem realBars_not_synthetic (ph : List PricePoint) :
    ∀ b ∈ realBars ph, b.synthetic = false := by
  intro b hb
  unfold realBars at hb
  rw [List.mem_flatMap] at hb
  obtain ⟨k, _, hbk⟩ := hb
  dsimp only at hbk
  split at hbk
  · simp at hbk
  · rw [List.mem_singleton.1 hbk]

/-- The per-bucket bar of the aggregation, as a function of the bucket key. -/
def bucketBar (ph : List PricePoint) (k : ℤ) : Bar :=
  let prices := (ph.filter fun p => bucket5 p.time == k).map (·.price)
  { time := some k
    o := pyRound (prices.headD 0) 2
    h := pyRound (listMax prices) 2
    l := pyRound (listMin prices) 2
    c := pyRound (prices.getLastD 0) 2
    v := prices.length * 100
    synthetic := false }

theorem realBars_eq_map (ph : List PricePoint) :
    realBars ph =
      (((ph.map fun p => bucket5 p.time).dedup).mergeSort
        fun a b => decide (a ≤ b)).map (bucketBar ph) := by
  unfold realBars
  refine flatMap_eq_map _ _ _ fun k hk => ?_
  have hkm : k ∈ ph.map fun p => bucket5 p.time :=
    List.mem_dedup.1 (List.mem_mergeSort.1 hk)
  obtain ⟨p, hp, hpk⟩ := List.mem_map.1 hkm
  have hne : (ph.filter fun p => bucket5 p.time == k).map (·.price) ≠ [] := by
    simp only [ne_eq, List.map_eq_nil_iff]
    intro hnil
    have : p ∈ ph.filter fun p => bucket5 p.time == k :=
      List.mem_filter.2 ⟨hp, by simp [hpk]⟩
    rw [hnil] at this
    exact absurd this (List.not_mem_nil p)
  dsimp only
  rw [if_neg hne]
  rfl

/-- The sorted distinct bucket keys are strictly ascending. -/
theorem keys_chain (ph : List PricePoint) :
    List.Chain' (· < ·)
      (((ph.map fun p => bucket5 p.time).dedup).mergeSort
        fun a b => decide (a ≤ b)) := by
  have hsorted := @List.sorted_mergeSort ℤ
    (fun a b => decide (a ≤ b))
    (fun a b c h1 h2 => by
      simp only [decide_eq_true_eq] at *
      omega)
    (fun a b => by
      simp only [Bool.or_eq_true, decide_eq_true_eq]
      omega)
    ((ph.map fun p => bucket5 p.time).dedup)
  have hnd : (((ph.map fun p => bucket5 p.time).dedup).mergeSort
      fun a b => decide (a ≤ b)).Nodup :=
    ((List.mergeSort_perm _ _).nodup_iff).2 (List.nodup_dedup _)
  refine List.Pairwise.chain' ?_
  refine (hsorted.and hnd).imp ?_
  intro a b h
  obtain ⟨h1, h2⟩ := h
  simp only [decide_eq_true_eq] at h1
  omega

/-- The real bars are emitted in strictly ascending time order. -/
theorem realBars_chain (ph : List PricePoint) :
    List.Chain' barTimeLt (realBars ph) := by
  rw [realBars_eq_map]
  rw [List.chain'_map]
  refine (keys_chain ph).imp ?_
  intro a b hab
  refine ⟨?_, ?_⟩
  · show timeLeB (some a) (some b) = true
    simp only [timeLeB, decide_eq_true_eq]
    omega
  · show (some a : Option ℤ) ≠ some b
    simp only [ne_eq, Option.some.injEq]
    omega

/-- The back-fill loop only prepends synthetic bars. -/
theorem backfillLoop_shape (sinQ : ℚ → ℚ) (now : ℤ) (cp : ℚ) :
    ∀ (count i : ℕ) (bars : List Bar),
      ∃ syn : List Bar,
        backfillLoop sinQ now cp count i bars = syn ++ bars ∧
          ∀ b ∈ syn, b.synthetic = true := by
  intro count
  induction count with
  | zero => intro i bars; exact ⟨[], rfl, by simp⟩
  | succ k ih =>
    intro i bars
    obtain ⟨syn, heq, hsyn⟩ :=
      ih (i + 1) (synthBar sinQ now cp (60 - (bars.length : ℤ) - (i : ℤ)) :: bars)
    refine ⟨syn ++ [synthBar sinQ now cp (60 - (bars.length : ℤ) - (i : ℤ))], ?_, ?_⟩
    · unfold backfillLoop
      rw [heq]
      simp
    · intro b hb
      rcases List.mem_append.1 hb with h | h
      · exact hsyn b h
      · rw [List.mem_singleton.1 h]
        rfl

/-- The non-synthetic bars of a list. -/
def realOnly (l : List Bar) : List Bar := l.filter fun b => !b.synthetic

/-- The synthetic flag and timestamp of a bar (the data the ordering claims
are about). -/
def pairF (b : Bar) : Bool × Option ℤ := (b.synthetic, b.time)

theorem fixLast_pairs (cp : ℚ) (l : List Bar) :
    (fixLastBar cp l).map pairF = l.map pairF := by
  unfold fixLastBar
  cases hl : l.getLast? with
  | none => rfl
  | some last =>
    have hne : l ≠ [] := by
      intro h
      rw [h] at hl
      simp at hl
    have hlast : l.getLast hne = last := by
      rw [List.getLast?_eq_getLast l hne] at hl
      exact Option.some.inj hl
    conv_rhs => rw [← List.dropLast_append_getLast hne]
    simp only [List.map_append, List.map_cons, List.map_nil, hlast]
    congr 1
    dsimp only
    split <;> split <;> rfl

theorem realOnly_map_time (l : List Bar) :
    (realOnly l).map (·.time) =
      ((l.map pairF).filter fun x => !x.1).map (·.2) := by
  induction l with
  | nil => rfl
  | cons b rest ih =>
    unfold realOnly at *
    simp only [List.filter_cons, List.map_cons, pairF]
    cases hb : b.synthetic <;> simp_all

theorem realOnly_map_time_congr (l1 l2 : List Bar)
    (h : l1.map pairF = l2.map pairF) :
    (realOnly l1).map (·.time) = (realOnly l2).map (·.time) := by
  rw [realOnly_map_time, realOnly_map_time, h]

/-- The synthetic-then-real shape relation: once a real bar appears, every
later bar is real. -/
def synShape (a b : Bar) : Prop := a.synthetic = false → b.synthetic = false

theorem chain'_synShape_iff (l : List Bar) :
    List.Chain' synShape l ↔
      List.Chain' (fun x y : Bool × Option ℤ => x.1 = false → y.1 = false)
        (l.map pairF) := by
  rw [List.chain'_map]
  rfl

theorem chain'_barTimeLt_iff (l : List Bar) :
    List.Chain' barTimeLt l ↔
      List.Chain' (fun x y : Option ℤ => timeLeB x y = true ∧ x ≠ y)
        (l.map (·.time)) := by
  rw [List.chain'_map]
  rfl

/-- A list that is all-synthetic then all-real satisfies the shape chain. -/
theorem chain'_synShape_of_split (s r : List Bar)
    (hs : ∀ b ∈ s, b.synthetic = true) (hr : ∀ b ∈ r, b.synthetic = false) :
    List.Chain' synShape (s ++ r) := by
  rw [List.chain'_append]
  refine ⟨?_, ?_, ?_⟩
  · refine List.Pairwise.chain' (List.pairwise_of_forall_mem_list ?_)
    intro a ha b _
    intro hfalse
    rw [hs a ha] at hfalse
    exact absurd hfalse (by simp)
  · refine List.Pairwise.chain' (List.pairwise_of_forall_mem_list ?_)
    intro a _ b hb
    intro _
    exact hr b hb
  · intro x hx y hy
    intro hfalse
    have hxs : x ∈ s := List.mem_of_mem_getLast? hx
    rw [hs x hxs] at hfalse
    exact absurd hfalse (by simp)

theorem c7_core (cp : ℚ) (syn bars0 : List Bar)
    (hsyn : ∀ b ∈ syn, b.synthetic = true)
    (hb0 : ∀ b ∈ bars0, b.synthetic = false)
    (hch : List.Chain' barTimeLt bars0) :
    (takeLast 200 (fixLastBar cp (syn ++ bars0))).length ≤ 200 ∧
    List.Chain' synShape (takeLast 200 (fixLastBar cp (syn ++ bars0))) ∧
    List.Chain' barTimeLt (realOnly (takeLast 200 (fixLastBar cp (syn ++ bars0)))) := by
  have hshape1 := chain'_synShape_of_split syn bars0 hsyn hb0
  have hreal1 : realOnly (syn ++ bars0) = bars0 := by
    unfold realOnly
    rw [List.filter_append,
      List.filter_eq_nil_iff.2 fun a ha => by rw [hsyn a ha]; simp,
      List.filter_eq_self.2 fun a ha => by rw [hb0 a ha]; rfl]
    simp
  have hpairs := fixLast_pairs cp (syn ++ bars0)
  have hshape2 : List.Chain' synShape (fixLastBar cp (syn ++ bars0)) := by
    rw [chain'_synShape_iff, hpairs, ← chain'_synShape_iff]
    exact hshape1
  have htime2 : List.Chain' barTimeLt (realOnly (fixLastBar cp (syn ++ bars0))) := by
    rw [chain'_barTimeLt_iff, realOnly_map_time_congr _ _ hpairs,
      ← chain'_barTimeLt_iff, hreal1]
    exact hch
  refine ⟨?_, ?_, ?_⟩
  · unfold takeLast
    simp only [List.length_drop]
    omega
  · exact hshape2.drop _
  · exact chain'_suffix htime2 ((List.drop_suffix _ _).filter _)

/-- The real-bar stage of `build_bars_from_price`: the capped history with
the live tick appended, aggregated into 5-minute bars when more than 10
observations exist. -/
def bars0Of (hist : List PricePoint) (now : ℤ) (cp : ℚ) : List Bar :=
  let ph1 := hist ++ [⟨now, cp⟩]
  let ph := if 2000 < ph1.length then takeLast 2000 ph1 else ph1
  if 10 < ph.length then realBars ph else []

theorem build_bars_fst (sinQ : ℚ → ℚ) (now : ℤ) (cp : ℚ)
    (hist : List PricePoint) :
    (build_bars_from_price sinQ now cp hist).1 =
      takeLast 200 (fixLastBar cp
        (if (bars0Of hist now cp).length < 60
         then backfill sinQ now cp (bars0Of hist now cp)
         else bars0Of hist now cp)) := rfl

theorem build_bars_core (sinQ : ℚ → ℚ) (now : ℤ) (cp : ℚ) (bars0 : List Bar)
    (hsynf : ∀ b ∈ bars0, b.synthetic = false)
    (hch : List.Chain' barTimeLt bars0) :
    (takeLast 200 (fixLastBar cp
      (if bars0.length < 60 then backfill sinQ now cp bars0 else bars0))).length
        ≤ 200 ∧
    List.Chain' synShape (takeLast 200 (fixLastBar cp
      (if bars0.length < 60 then backfill sinQ now cp bars0 else bars0))) ∧
    List.Chain' barTimeLt (realOnly (takeLast 200 (fixLastBar cp
      (if bars0.length < 60 then backfill sinQ now cp bars0 else bars0)))) := by
  by_cases h60 : bars0.length < 60
  · rw [if_pos h60]
    unfold backfill
    obtain ⟨syn, h1, h2⟩ :=
      backfillLoop_shape sinQ now cp (60 - bars0.length) 0 bars0
    rw [h1]
    exact c7_core cp syn bars0 h2 hsynf hch
  · rw [if_neg h60]
    have h := c7_core cp [] bars0 (by simp) hsynf hch
    rw [List.nil_append] at h
    exact h

theorem if_realBars_not_synthetic (ph : List PricePoint) (c : Prop)
    [Decidable c] :
    ∀ b ∈ (if c then realBars ph else []), b.synthetic = false := by
  split
  · exact realBars_not_synthetic ph
  · simp

theorem if_realBars_chain (ph : List PricePoint) (c : Prop) [Decidable c] :
    List.Chain' barTimeLt (if c then realBars ph else []) := by
  split
  · exact realBars_chain ph
  · exact List.chain'_nil

theorem bars0Of_not_synthetic (hist : List PricePoint) (now : ℤ) (cp : ℚ) :
    ∀ b ∈ bars0Of hist now cp, b.synthetic = false := by
  unfold bars0Of
  dsimp only
  exact if_realBars_not_synthetic _ _

theorem bars0Of_chain (hist : List PricePoint) (now : ℤ) (cp : ℚ) :
    List.Chain' barTimeLt (bars0Of hist now cp) := by
  unfold bars0Of
  dsimp only
  exact if_realBars_chain _ _

/-- C7 (amended): the bar list returned by `build_bars_from_price` holds at
most 200 bars; within it, once a real bar appears every later bar is real
(synthetic back-fill bars, when present, precede the real bars — the reverse
of the claimed real-before-synthetic order), and the real bars appear in
strictly ascending time order. -/
theorem build_bars_bound_and_order (sinQ : ℚ → ℚ) (now : ℤ) (cp : ℚ)
    (hist : List PricePoint) :
    (build_bars_from_price sinQ now cp hist).1.length ≤ 200 ∧
    List.Chain' synShape (build_bars_from_price sinQ now cp hist).1 ∧
    List.Chain' barTimeLt (realOnly (build_bars_from_price sinQ now cp hist).1) := by
  rw [build_bars_fst]
  exact build_bars_core sinQ now cp (bars0Of hist now cp)
    (bars0Of_not_synthetic hist now cp) (bars0Of_chain hist now cp)

/-- Eleven price observations inside one 5-minute bucket. -/
def hist11 : List PricePoint :=
  [⟨1000000, 2000⟩, ⟨1000001, 2000⟩, ⟨1000002, 2000⟩, ⟨1000003, 2000⟩,
   ⟨1000004, 2000⟩, ⟨1000005, 2000⟩, ⟨1000006, 2000⟩, ⟨1000007, 2000⟩,
   ⟨1000008, 2000⟩, ⟨1000009, 2000⟩, ⟨1000010, 2000⟩]

/-- Counterexample to C7 as stated: with 12 observations in one bucket (one
real bar) the returned list has 60 bars, its first two bars are in
*descending* time order, its first bar is synthetic and its last bar is real
— so the output is neither in ascending time order nor real-before-synthetic. -/
theorem build_bars_order_counterexample :
    (build_bars_from_price (fun _ => 0) 1000010 2000 hist11).1.length = 60 ∧
    timeLeB
      (((build_bars_from_price (fun _ => 0) 1000010 2000 hist11).1.getD 0 default).time)
      (((build_bars_from_price (fun _ => 0) 1000010 2000 hist11).1.getD 1 default).time)
      = false ∧
    ((build_bars_from_price (fun _ => 0) 1000010 2000 hist11).1.getD 0 default).synthetic
      = true ∧
    ((build_bars_from_price (fun _ => 0) 1000010 2000 hist11).1.getD 59 default).synthetic
      = false := by
  have hph : (if 2000 < (hist11 ++ [(⟨1000010, 2000⟩ : PricePoint)]).length
      then takeLast 2000 (hist11 ++ [⟨1000010, 2000⟩])
      else hist11 ++ [⟨1000010, 2000⟩]) = hist11 ++ [⟨1000010, 2000⟩] := rfl
  have hcond : 10 < (hist11 ++ [(⟨1000010, 2000⟩ : PricePoint)]).length := by
    decide
  have hdedup : ((hist11 ++ [(⟨1000010, 2000⟩ : PricePoint)]).map
      fun p => bucket5 p.time).dedup = [(999900 : ℤ)] := by decide
  have hb0 : bars0Of hist11 1000010 2000 =
      [(⟨some 999900, 2000, 2000, 2000, 2000, 1200, false⟩ : Bar)] := by
    unfold bars0Of
    dsimp only
    rw [hph, if_pos hcond]
    unfold realBars
    dsimp only
    rw [hdedup, List.mergeSort_singleton 999900]
    decide
  rw [build_bars_fst, hb0]
  exact ⟨by decide, by decide, by decide, by decide⟩
